import Mathlib

/-!
Verification development for the terminal rich-text rendering core of a
terminal GitHub-issue client: a markdown-to-styled-lines layout engine
(`MarkdownRenderer`), a hyperlink-painting widget (`Link`, crate hyperrat),
and a scroll-aware link hit projector (`projectLinks`).

The definitions below are a shallow embedding of the Rust source
(`src/ui/components/issue_conversation.rs` and `crates/hyperrat/src/lib.rs`).
External library behaviour is modelled explicitly:
* `charWidth` models the per-character cell width used by
  `textwrap::core::display_width` (wide CJK glyphs count 2, combining and
  control characters count 0, everything else 1); ANSI-escape-sequence
  skipping is not modelled, strings are measured character by character.
* `rustIsWhitespace` models Rust's `char::is_whitespace`
  (the Unicode White_Space property).
* `breakLongWordGo` models `textwrap::wrap` with `break_words(true)` on a
  single whitespace-free word: greedy break-anywhere chunking, at least one
  character per chunk.
* the syntax highlighter (syntect) is an abstract parameter `Highlighter`;
  `none` models a highlight error for that line.
-/

/-- Cell width of one character (model of unicode-width as used by
`textwrap::core::display_width`). -/
def charWidth (c : Char) : Nat :=
  let n := c.toNat
  if n < 0x20 then 0
  else if n = 0x7f then 0
  else if 0x300 ≤ n ∧ n ≤ 0x36f then 0
  else if n = 0x200b then 0
  else if (0x1100 ≤ n ∧ n ≤ 0x115f) ∨ (0x2e80 ≤ n ∧ n ≤ 0xa4cf) ∨
      (0xac00 ≤ n ∧ n ≤ 0xd7a3) ∨ (0xf900 ≤ n ∧ n ≤ 0xfaff) ∨
      (0xfe30 ≤ n ∧ n ≤ 0xfe4f) ∨ (0xff00 ≤ n ∧ n ≤ 0xff60) ∨
      (0xffe0 ≤ n ∧ n ≤ 0xffe6) ∨ (0x20000 ≤ n ∧ n ≤ 0x3fffd) then 2
  else 1

/-- Display width of a character list. -/
def displayWidthL (cs : List Char) : Nat := (cs.map charWidth).sum

/-- Display width of a string (model of `textwrap::core::display_width`). -/
def displayWidth (s : String) : Nat := displayWidthL s.data

/-- Model of Rust `char::is_whitespace` (Unicode White_Space property). -/
def rustIsWhitespace (c : Char) : Bool :=
  let n := c.toNat
  n == 0x9 || n == 0xa || n == 0xb || n == 0xc || n == 0xd || n == 0x20 ||
  n == 0x85 || n == 0xa0 || n == 0x1680 ||
  (0x2000 ≤ n && n ≤ 0x200a) || n == 0x2028 || n == 0x2029 ||
  n == 0x202f || n == 0x205f || n == 0x3000

/-- Model of Rust `str::repeat`. -/
def repeatString (s : String) : Nat → String
  | 0 => ""
  | n + 1 => s ++ repeatString s n

/-- Terminal colours used by the rendering core (subset of ratatui `Color`). -/
inductive Color where
  | blue | green | cyan | yellow | red | darkGray | lightMagenta | lightYellow
  | rgb (r g b : Nat)
deriving DecidableEq

/-- ratatui `Style`, restricted to the attributes this code base uses.
`add_modifier` bits are booleans; the code never removes modifiers. -/
structure Style where
  fg : Option Color := none
  bold : Bool := false
  italic : Bool := false
  underlined : Bool := false
  crossedOut : Bool := false
deriving DecidableEq

instance : Inhabited Style := ⟨{}⟩

/-- ratatui `Style::patch`: `other`'s colour wins when set, modifiers union. -/
def Style.patch (a b : Style) : Style :=
  { fg := match b.fg with | some c => some c | none => a.fg
    bold := a.bold || b.bold
    italic := a.italic || b.italic
    underlined := a.underlined || b.underlined
    crossedOut := a.crossedOut || b.crossedOut }

/-! ## hyperrat: the `Link` widget (crates/hyperrat/src/lib.rs) -/

/-- `truncate_label` from hyperrat: the greedy accumulation loop.
Chars are taken while `running width + char width + 3 ≤ max_width`. -/
def truncAccum (mw : Nat) : Nat → List Char → List Char
  | _, [] => []
  | w, c :: cs =>
    if w + charWidth c + 3 > mw then []
    else c :: truncAccum mw (w + charWidth c) cs

/-- hyperrat `truncate_label`: returns the (possibly truncated) label and
whether truncation happened. -/
def truncate_label (label : String) (max_width : Nat) : String × Bool :=
  if max_width = 0 then ("", !(label == ""))
  else if displayWidth label ≤ max_width then (label, false)
  else if max_width ≤ 3 then (repeatString "." max_width, true)
  else (String.mk (truncAccum max_width 0 label.data) ++ "...", true)

/-- hyperrat `with_fallback_suffix`. -/
def with_fallback_suffix (label suffix : String) (max_width : Nat) : String :=
  if max_width = 0 then ""
  else if displayWidth suffix ≥ max_width then (truncate_label suffix max_width).1
  else
    let prefix_max := max_width - displayWidth suffix
    (truncate_label label prefix_max).1 ++ suffix

/-- hyperrat `encode_osc8`. -/
def encode_osc8 (label url : String) : String :=
  "\u001b]8;;" ++ url ++ "\u001b\\" ++ label ++ "\u001b]8;;" ++ "\u001b\\"

/-- ratatui `Rect` (cell units). -/
structure Rect where
  x : Nat
  y : Nat
  width : Nat
  height : Nat
deriving DecidableEq

/-- One terminal grid cell: symbol, style and the continuation/skip flag. -/
structure Cell where
  symbol : String := " "
  style : Style := {}
  skip : Bool := false
deriving DecidableEq

/-- ratatui `Buffer`: a rectangular grid of cells, row-major. -/
structure Buffer where
  area : Rect
  cells : List Cell
deriving DecidableEq

/-- Index of position `(x, y)` in the buffer, when inside its area
(models `Buffer::cell_mut` addressing). -/
def Buffer.idx (b : Buffer) (x y : Nat) : Option Nat :=
  if b.area.x ≤ x ∧ x < b.area.x + b.area.width ∧
      b.area.y ≤ y ∧ y < b.area.y + b.area.height then
    some ((y - b.area.y) * b.area.width + (x - b.area.x))
  else none

/-- Functional update of one cell; out-of-area positions are ignored
(models the `if let Some(cell) = buf.cell_mut(..)` pattern). -/
def Buffer.modifyCell (b : Buffer) (x y : Nat) (f : Cell → Cell) : Buffer :=
  match b.idx x y with
  | some i => { b with cells := b.cells.set i (f (b.cells.getD i {})) }
  | none => b

/-- hyperrat `clear_area_row`: blank every cell of the area's first row and
clear its skip flag. -/
def clear_area_row (area : Rect) (b : Buffer) : Buffer :=
  (List.range area.width).foldl
    (fun b off => b.modifyCell (area.x + off) area.y
      (fun c => { c with symbol := " ", skip := false })) b

/-- Model of ratatui `Buffer::set_stringn`: write the string's characters
starting at `(x, y)`, consuming at most `maxw` cells; zero-width characters
are skipped. -/
def set_stringn (b : Buffer) (x y : Nat) (s : String) (maxw : Nat)
    (style : Style) : Buffer :=
  (go b x maxw s.data).1
where
  go (b : Buffer) (x remaining : Nat) : List Char → Buffer × Nat
    | [] => (b, x)
    | c :: cs =>
      let w := charWidth c
      if w = 0 then go b x remaining cs
      else if w ≤ remaining then
        go (b.modifyCell x y (fun cell =>
          { cell with symbol := String.mk [c], style := style })) (x + w)
          (remaining - w) cs
      else (b, x)

/-- hyperrat `Link` widget. -/
structure Link where
  label : String
  url : String
  style : Style := { fg := some Color.blue, underlined := true }
  hover_style : Option Style := none
  fallback_suffix : Option String := none
  enabled : Bool := true
  focused : Bool := false
deriving DecidableEq

/-- `Link::new`, all options at their defaults. -/
def Link.new (label url : String) : Link := { label := label, url := url }

/-- `Link::resolved_style`. -/
def Link.resolved_style (l : Link) : Style :=
  if l.focused then
    match l.hover_style with
    | some h => l.style.patch h
    | none => l.style.patch { bold := true }
  else l.style

/-- `Link::should_render_hyperlink`; `osc8` is the injected terminal
capability (`osc8_supported()` reads the environment in the source). -/
def Link.should_render_hyperlink (l : Link) (osc8 : Bool) : Bool :=
  l.enabled && osc8 && !(l.url == "")

/-- `impl Widget for Link`: `render` writes the link into the buffer. -/
def Link.render (l : Link) (osc8 : Bool) (area : Rect) (buf : Buffer) :
    Buffer :=
  if area.width = 0 ∨ area.height = 0 then buf
  else
    let style := l.resolved_style
    let max_width := area.width
    let base_label := if l.label == "" then l.url else l.label
    let tr := truncate_label base_label max_width
    let label :=
      if !(l.should_render_hyperlink osc8) && tr.2 then
        match l.fallback_suffix with
        | some suffix => with_fallback_suffix tr.1 suffix max_width
        | none => tr.1
      else tr.1
    let label_width := min (displayWidth label) max_width
    if label_width = 0 then buf
    else
      let buf := clear_area_row area buf
      if l.should_render_hyperlink osc8 then
        let encoded := encode_osc8 label l.url
        let buf := buf.modifyCell area.x area.y (fun c =>
          { c with symbol := encoded, style := style, skip := false })
        (List.range (label_width - 1)).foldl (fun buf off =>
          buf.modifyCell (area.x + off + 1) area.y (fun _ =>
            { symbol := " ", skip := true, style := style })) buf
      else
        let buf := set_stringn buf area.x area.y label max_width style
        (List.range label_width).foldl (fun buf off =>
          buf.modifyCell (area.x + off) area.y (fun c =>
            { c with skip := false })) buf

/-! ## MarkdownRenderer (src/ui/components/issue_conversation.rs) -/

/-- One styled span of a rendered line. The `fromBreak` field is a ghost
marker recording that the span was emitted by the long-word break-anywhere
path (`push_long_word`); it carries no rendering information and erasing it
gives exactly the source's `Span`. -/
structure RSpan where
  content : String
  style : Style := {}
  fromBreak : Bool := false
deriving DecidableEq

/-- `Span::raw`. -/
def RSpan.raw (s : String) : RSpan := { content := s }

/-- `Span::styled`. -/
def RSpan.styled (s : String) (st : Style) : RSpan :=
  { content := s, style := st }

/-- A rendered line is its ordered list of spans. -/
abbrev RLine := List RSpan

/-- Summed display width of a line's spans. -/
def lineWidth (l : RLine) : Nat := (l.map (fun sp => displayWidth sp.content)).sum

/-- `RenderedLink`: screen-position metadata of one link fragment. -/
structure RenderedLink where
  line : Nat
  col : Nat
  label : String
  url : String
  width : Nat
deriving DecidableEq

/-- `MarkdownRender`: the finished document. -/
structure MarkdownRender where
  lines : List RLine
  links : List RenderedLink
deriving DecidableEq

/-- `BlockQuoteKind` (pulldown-cmark GFM alert kinds). -/
inductive BlockQuoteKind where
  | note | tip | important | warning | caution
deriving DecidableEq

/-- `AdmonitionStyle`: per-kind marker, default title, colours. -/
structure AdmonitionStyle where
  marker : String
  default_title : String
  border_color : Color
  title_style : Style
deriving DecidableEq

/-- `AdmonitionStyle::from_block_quote_kind`. -/
def AdmonitionStyle.from_block_quote_kind :
    BlockQuoteKind → Option AdmonitionStyle
  | .note => some ⟨"NOTE", "Note", .blue,
      { fg := some .blue, bold := true }⟩
  | .tip => some ⟨"TIP", "Tip", .green,
      { fg := some .green, bold := true }⟩
  | .important => some ⟨"IMPORTANT", "Important", .cyan,
      { fg := some .cyan, bold := true }⟩
  | .warning => some ⟨"WARNING", "Warning", .yellow,
      { fg := some .yellow, bold := true }⟩
  | .caution => some ⟨"CAUTION", "Caution", .red,
      { fg := some .red, bold := true }⟩

/-- Markdown start tags (the cases `start_tag` distinguishes; `other`
collects every tag it ignores). For code blocks the language token is the
already-resolved `code_block_kind_lang` result. -/
inductive MdTag where
  | emphasis | strong | strikethrough | superscript | subscript
  | link (dest_url : String)
  | heading
  | blockQuote (kind : Option BlockQuoteKind)
  | codeBlock (lang : Option String)
  | item
  | paragraph
  | other
deriving DecidableEq

/-- Markdown end tags. -/
inductive MdTagEnd where
  | emphasis | strong | strikethrough | superscript | subscript | link
  | heading | blockQuote | codeBlock | item | paragraph | other
deriving DecidableEq

/-- Parsed markdown events (the cases `render_markdown` dispatches on).
`html` is routed to `text` exactly as in the source. -/
inductive MdEvent where
  | start (t : MdTag)
  | stop (t : MdTagEnd)
  | text (s : String)
  | code (s : String)
  | math (s : String)
  | softBreak
  | hardBreak
  | html (s : String)
  | rule
  | taskListMarker (checked : Bool)
deriving DecidableEq

/-- Abstract per-line syntax highlighter: language token and raw line to
styled fragments, `none` modelling a `highlight_line` error. -/
abbrev Highlighter := Option String → String → Option (List (Style × String))

/-- The renderer's builder state (struct `MarkdownRenderer`). -/
structure MarkdownRenderer where
  lines : List RLine
  links : List RenderedLink
  current_line : RLine
  current_width : Nat
  max_width : Nat
  indent : Nat
  style_stack : List Style
  current_style : Style
  in_block_quote : Bool
  block_quote_style : Option AdmonitionStyle
  block_quote_title_pending : Bool
  in_code_block : Bool
  code_block_lang : Option String
  code_block_buf : String
  list_pref : Option String
  pending_space : Bool
  active_link_url : Option String
deriving DecidableEq

/-- `MarkdownRenderer::new`: note the silent clamp of `max_width` to at
least 10. -/
def MarkdownRenderer.new (max_width indent : Nat) : MarkdownRenderer :=
  { lines := [], links := [], current_line := [], current_width := 0
    max_width := max max_width 10, indent := indent
    style_stack := [], current_style := {}
    in_block_quote := false, block_quote_style := none
    block_quote_title_pending := false
    in_code_block := false, code_block_lang := none, code_block_buf := ""
    list_pref := none, pending_space := false, active_link_url := none }

/-- `prefix_width`: indent plus block-quote border (2 cells) plus list
prefix. -/
def MarkdownRenderer.pref_width (s : MarkdownRenderer) : Nat :=
  s.indent + (if s.in_block_quote then 2 else 0) +
    (match s.list_pref with
     | some p => displayWidth p
     | none => 0)

/-- Style of the block-quote border span. -/
def borderStyle (o : Option AdmonitionStyle) : Style :=
  match o with
  | some a => { fg := some a.border_color }
  | none => { fg := some Color.darkGray }

/-- `start_line`: install the line prefix (indentation, quote border, list
prefix) on an empty line. The border span is the single character `" "`
but is counted as 2 cells, exactly as in the source. -/
def MarkdownRenderer.start_line (s : MarkdownRenderer) : MarkdownRenderer :=
  if !s.current_line.isEmpty then s
  else
    let s :=
      if 0 < s.indent then
        { s with current_width := s.current_width + s.indent
                 current_line := s.current_line ++
                   [RSpan.raw (repeatString " " s.indent)] }
      else s
    let s :=
      if s.in_block_quote then
        { s with current_width := s.current_width + 2
                 current_line := s.current_line ++
                   [RSpan.styled " " (borderStyle s.block_quote_style)] }
      else s
    match s.list_pref with
    | some p =>
        { s with current_width := s.current_width + displayWidth p
                 current_line := s.current_line ++ [RSpan.raw p] }
    | none => s

/-- `flush_line`. -/
def MarkdownRenderer.flush_line (s : MarkdownRenderer) : MarkdownRenderer :=
  if s.current_line.isEmpty then { s with pending_space := false }
  else
    { s with lines := s.lines ++ [s.current_line], current_line := []
             current_width := 0, pending_space := false }

/-- `push_blank_line`: append an empty line unless the last line is already
empty. -/
def MarkdownRenderer.push_blank_line (s : MarkdownRenderer) :
    MarkdownRenderer :=
  if s.lines.getLast?.isSome ∧ (s.lines.getLast?.getD []).isEmpty then s
  else { s with lines := s.lines ++ [[]] }

/-- `push_style`. -/
def MarkdownRenderer.push_style (s : MarkdownRenderer) (st : Style) :
    MarkdownRenderer :=
  { s with style_stack := s.style_stack ++ [s.current_style]
           current_style := s.current_style.patch st }

/-- `pop_style`: `Vec::pop` on an empty stack is a no-op. -/
def MarkdownRenderer.pop_style (s : MarkdownRenderer) : MarkdownRenderer :=
  match s.style_stack.getLast? with
  | some prev =>
      { s with style_stack := s.style_stack.dropLast, current_style := prev }
  | none => s

/-- `current_line_index`. -/
def MarkdownRenderer.current_line_index (s : MarkdownRenderer) : Nat :=
  s.lines.length

/-- `push_link_segment`: record one link fragment; a fragment that is
column-adjacent to the last tracked fragment of the same url on the same
line extends it instead. -/
def MarkdownRenderer.push_link_segment (s : MarkdownRenderer)
    (label : String) (col width : Nat) : MarkdownRenderer :=
  match s.active_link_url with
  | none => s
  | some url =>
    if label = "" ∨ width = 0 then s
    else
      let line := s.current_line_index
      match s.links.getLast? with
      | some last =>
        if last.url = url ∧ last.line = line ∧ last.col + last.width = col then
          { s with links := s.links.dropLast ++
              [{ last with label := last.label ++ label
                           width := last.width + width }] }
        else
          { s with links := s.links ++
              [{ line := line, col := col, label := label, url := url
                 width := width }] }
      | none =>
          { s with links := s.links ++
              [{ line := line, col := col, label := label, url := url
                 width := width }] }

/-- `should_attach_space_to_active_link`. -/
def MarkdownRenderer.should_attach_space_to_active_link
    (s : MarkdownRenderer) (space_col : Nat) : Bool :=
  match s.active_link_url with
  | none => false
  | some url =>
    match s.links.getLast? with
    | some last =>
        last.url == url && last.line == s.current_line_index &&
          last.col + last.width == space_col
    | none => false

/-- Greedy break-anywhere chunking of a single whitespace-free word (model
of `textwrap::wrap` with `break_words(true)`): chars are accumulated while
the chunk stays within `available`; every chunk holds at least one char. -/
def breakLongWordGo (available : Nat) (cur : List Char) (curW : Nat) :
    List Char → List (List Char)
  | [] => if cur.isEmpty then [] else [cur]
  | c :: cs =>
    if cur.isEmpty then breakLongWordGo available [c] (charWidth c) cs
    else if curW + charWidth c ≤ available then
      breakLongWordGo available (cur ++ [c]) (curW + charWidth c) cs
    else cur :: breakLongWordGo available [c] (charWidth c) cs

/-- The chunks `push_long_word` iterates over. -/
def breakLongWord (available : Nat) (word : String) : List (List Char) :=
  breakLongWordGo available [] 0 word.data

/-- Loop body of `push_long_word`: emit each chunk, flushing between
chunks after the first. -/
def MarkdownRenderer.push_parts (style : Style) :
    MarkdownRenderer → Bool → List (List Char) → MarkdownRenderer
  | s, _, [] => s
  | s, first, p :: ps =>
    let s := if first then s else s.flush_line
    let s := s.start_line
    let col := s.current_width
    let pw := displayWidthL p
    let s := { s with
      current_line := s.current_line ++
        [({ content := String.mk p, style := style, fromBreak := true } : RSpan)]
      current_width := s.current_width + pw }
    (s.push_link_segment (String.mk p) col pw).push_parts style false ps

/-- `push_long_word`: hard-break an over-wide word, with the available
budget clamped to at least 1. -/
def MarkdownRenderer.push_long_word (s : MarkdownRenderer) (word : String)
    (style : Style) : MarkdownRenderer :=
  let available := max (s.max_width - s.pref_width) 1
  s.push_parts style true (breakLongWord available word)

/-- `push_word`: place one whitespace-free word, materialising the pending
space and wrapping when needed. -/
def MarkdownRenderer.push_word (s : MarkdownRenderer) (word : String)
    (style : Style) : MarkdownRenderer :=
  let pw := s.pref_width
  let mw := s.max_width
  let ww := displayWidth word
  let space_width := if s.pending_space ∧ pw < s.current_width then 1 else 0
  if mw - pw < ww then
    { s.push_long_word word style with pending_space := false }
  else
    let s := if s.current_line.isEmpty then s.start_line else s
    let s :=
      if mw < s.current_width + space_width + ww ∧ pw < s.current_width then
        (s.flush_line).start_line
      else s
    let s :=
      if s.pending_space ∧ pw < s.current_width then
        let space_col := s.current_width
        let s := { s with current_line := s.current_line ++ [RSpan.raw " "]
                          current_width := s.current_width + 1 }
        if s.should_attach_space_to_active_link space_col then
          s.push_link_segment " " space_col 1
        else s
      else s
    let s := { s with pending_space := false }
    let col := s.current_width
    let s := { s with current_line := s.current_line ++ [RSpan.styled word style]
                      current_width := s.current_width + ww }
    s.push_link_segment word col ww

/-- Loop of `push_text`: split on newlines and whitespace, pushing the
accumulated word buffer at each boundary. -/
def MarkdownRenderer.push_text_go (style : Style) :
    MarkdownRenderer → List Char → List Char → MarkdownRenderer
  | s, buf, [] => if buf.isEmpty then s else s.push_word (String.mk buf) style
  | s, buf, c :: cs =>
    if c = '\n' then
      let s := if buf.isEmpty then s else s.push_word (String.mk buf) style
      (s.flush_line).push_text_go style [] cs
    else if rustIsWhitespace c then
      let s := if buf.isEmpty then s else s.push_word (String.mk buf) style
      { s with pending_space := true }.push_text_go style [] cs
    else s.push_text_go style (buf ++ [c]) cs

/-- `push_text`. -/
def MarkdownRenderer.push_text (s : MarkdownRenderer) (t : String)
    (style : Style) : MarkdownRenderer :=
  s.push_text_go style [] t.data

/-- `push_admonition_header`: emit the admonition title line. -/
def MarkdownRenderer.push_admonition_header (s : MarkdownRenderer)
    (title : String) (sty : AdmonitionStyle) : MarkdownRenderer :=
  let s := s.flush_line
  let s := s.start_line
  let s := { s with
    current_line := s.current_line ++ [RSpan.styled title sty.title_style]
    current_width := s.current_width + displayWidth title }
  s.flush_line

/-- `ensure_admonition_header`: synthesize the default title if it is still
pending. -/
def MarkdownRenderer.ensure_admonition_header (s : MarkdownRenderer) :
    MarkdownRenderer :=
  if !s.block_quote_title_pending then s
  else
    let s :=
      match s.block_quote_style with
      | some sty => s.push_admonition_header sty.default_title sty
      | none => s
    { s with block_quote_title_pending := false }

/-- `extract_admonition_title`: match the leading `[!MARKER]` token
case-insensitively and return the trailing custom title. The source works
on bytes; since markers are pure ASCII the character-level reading below
is equivalent. -/
def extract_admonition_title (text marker : String) : Option String :=
  let trimmed := (text.data.dropWhile rustIsWhitespace)
  let mlen := marker.length
  if trimmed.length < mlen + 3 then none
  else if !(trimmed.getD 0 ' ' == '[') || !(trimmed.getD 1 ' ' == '!') then
    none
  else if !(trimmed.getD (2 + mlen) ' ' == ']') then none
  else if !(((trimmed.drop 2).take mlen).all₂
      (fun a b => a.toLower == b.toLower) marker.data) then none
  else
    let rest := trimmed.drop (mlen + 3)
    some (String.mk
      ((rest.dropWhile rustIsWhitespace).reverse.dropWhile
        rustIsWhitespace).reverse)

/-- Fallback style for a code line whose highlighting failed
(`Style::new().light_yellow()`). -/
def fallbackStyle : Style := { fg := some Color.lightYellow }

/-- Split a string at `'\n'`, keeping empty pieces (Rust `str::split`). -/
def splitNewlines (s : String) : List String :=
  go [] s.data
where
  go (cur : List Char) : List Char → List String
    | [] => [String.mk cur.reverse]
    | c :: cs =>
      if c = '\n' then String.mk cur.reverse :: go [] cs
      else go (c :: cur) cs

/-- `render_code_block`: hand each buffered raw line to the highlighter;
on failure fall back to one fallback-styled span of the raw line. -/
def MarkdownRenderer.render_code_block (s : MarkdownRenderer)
    (hl : Highlighter) : MarkdownRenderer :=
  if s.code_block_buf == "" then s
  else
    let code := s.code_block_buf
    let s := { s with code_block_buf := "" }
    (splitNewlines code).foldl (fun (s : MarkdownRenderer) raw_line =>
      let s := s.flush_line
      let s := s.start_line
      let s :=
        match hl s.code_block_lang raw_line with
        | some regions =>
          regions.foldl (fun (s : MarkdownRenderer) (r : Style × String) =>
            if r.2 == "" then s
            else { s with
              current_line := s.current_line ++ [RSpan.styled r.2 r.1]
              current_width := s.current_width + displayWidth r.2 }) s
        | none =>
          if raw_line == "" then s
          else { s with
            current_line := s.current_line ++
              [RSpan.styled raw_line fallbackStyle]
            current_width := s.current_width + displayWidth raw_line }
      s.flush_line) s

/-- `rule`: a full-width divider line. Note the source's bar string is the
empty string repeated, so the bar span has zero display width. -/
def MarkdownRenderer.rule (s : MarkdownRenderer) : MarkdownRenderer :=
  let s := s.flush_line
  let s := s.start_line
  let width := max (s.max_width - s.pref_width) 8
  let bar := repeatString "" width
  let s := { s with
    current_line := s.current_line ++
      [RSpan.styled bar { fg := some Color.darkGray }]
    current_width := s.current_width + displayWidth bar }
  let s := s.flush_line
  s.push_blank_line

/-- The non-admonition part of `text`: buffer code-block text, otherwise
word-wrap it with the current style. -/
def MarkdownRenderer.text_body (s : MarkdownRenderer) (t : String) :
    MarkdownRenderer :=
  if s.in_code_block then { s with code_block_buf := s.code_block_buf ++ t }
  else s.push_text t s.current_style

/-- `text`: first text token inside an admonition-tagged quote may become
the title header and is then not emitted as body text. -/
def MarkdownRenderer.text (s : MarkdownRenderer) (t : String) :
    MarkdownRenderer :=
  if s.in_block_quote ∧ s.block_quote_title_pending then
    match s.block_quote_style with
    | some sty =>
      match extract_admonition_title t sty.marker with
      | some title =>
        let title := if title == "" then sty.default_title else title
        { s.push_admonition_header title sty with
            block_quote_title_pending := false }
      | none => (s.ensure_admonition_header).text_body t
    | none => (s.ensure_admonition_header).text_body t
  else s.text_body t

/-- `inline_code`. -/
def MarkdownRenderer.inline_code (s : MarkdownRenderer) (t : String) :
    MarkdownRenderer :=
  let s := s.ensure_admonition_header
  s.push_text t (s.current_style.patch { fg := some Color.yellow, bold := true })

/-- `inline_math`. -/
def MarkdownRenderer.inline_math (s : MarkdownRenderer) (t : String) :
    MarkdownRenderer :=
  let s := s.ensure_admonition_header
  s.push_text t
    (s.current_style.patch { fg := some Color.lightMagenta, italic := true })

/-- `soft_break`. -/
def MarkdownRenderer.soft_break (s : MarkdownRenderer) : MarkdownRenderer :=
  let s := s.ensure_admonition_header
  if s.in_code_block then
    { s with code_block_buf := s.code_block_buf ++ "\n" }
  else { s with pending_space := true }

/-- `hard_break`. -/
def MarkdownRenderer.hard_break (s : MarkdownRenderer) : MarkdownRenderer :=
  let s := s.ensure_admonition_header
  if s.in_code_block then
    { s with code_block_buf := s.code_block_buf ++ "\n" }
  else s.flush_line

/-- `task_list_marker`. -/
def MarkdownRenderer.task_list_marker (s : MarkdownRenderer)
    (checked : Bool) : MarkdownRenderer :=
  let s := s.ensure_admonition_header
  s.push_text (if checked then "[x] " else "[ ] ") s.current_style

/-- `start_tag`. -/
def MarkdownRenderer.start_tag (s : MarkdownRenderer) : MdTag →
    MarkdownRenderer
  | .emphasis => s.push_style { italic := true }
  | .strong => s.push_style { bold := true }
  | .strikethrough => s.push_style { crossedOut := true }
  | .superscript => s.push_style { italic := true }
  | .subscript => s.push_style { italic := true }
  | .link dest_url =>
      { s with active_link_url := some dest_url }.push_style
        { fg := some Color.blue, underlined := true }
  | .heading => s.push_style { bold := true }
  | .blockQuote kind =>
      let s := s.flush_line
      let sty := kind.bind AdmonitionStyle.from_block_quote_kind
      { s with in_block_quote := true, block_quote_style := sty
               block_quote_title_pending := sty.isSome }
  | .codeBlock lang =>
      let s := s.ensure_admonition_header
      let s := s.flush_line
      { s with in_code_block := true, code_block_lang := lang
               code_block_buf := "" }
  | .item =>
      let s := s.flush_line
      { s with list_pref := some " " }
  | .paragraph => s
  | .other => s

/-- `end_tag`. -/
def MarkdownRenderer.end_tag (s : MarkdownRenderer) (hl : Highlighter) :
    MdTagEnd → MarkdownRenderer
  | .emphasis => s.pop_style
  | .strong => s.pop_style
  | .strikethrough => s.pop_style
  | .superscript => s.pop_style
  | .subscript => s.pop_style
  | .link => { s with active_link_url := none }.pop_style
  | .heading => (s.pop_style).flush_line
  | .blockQuote =>
      let s := s.flush_line
      let s := { s with in_block_quote := false, block_quote_style := none
                        block_quote_title_pending := false }
      s.push_blank_line
  | .codeBlock =>
      let s := s.render_code_block hl
      let s := s.flush_line
      let s := { s with in_code_block := false, code_block_lang := none
                        code_block_buf := "" }
      s.push_blank_line
  | .item =>
      let s := s.flush_line
      { s with list_pref := none }
  | .paragraph => (s.flush_line).push_blank_line
  | .other => s

/-- One event of the `render_markdown` dispatch loop. -/
def MarkdownRenderer.step (hl : Highlighter) (s : MarkdownRenderer) :
    MdEvent → MarkdownRenderer
  | .start t => s.start_tag t
  | .stop t => s.end_tag hl t
  | .text t => s.text t
  | .code t => s.inline_code t
  | .math t => s.inline_math t
  | .softBreak => s.soft_break
  | .hardBreak => s.hard_break
  | .html t => s.text t
  | .rule => s.rule
  | .taskListMarker c => s.task_list_marker c

/-- `finish`: flush, trim trailing blank lines, guarantee one line. -/
def MarkdownRenderer.finish (s : MarkdownRenderer) : MarkdownRender :=
  let s := s.flush_line
  let lines := (s.lines.reverse.dropWhile List.isEmpty).reverse
  let lines := if lines.isEmpty then [[RSpan.raw ""]] else lines
  { lines := lines, links := s.links }

/-- Fold of the event loop in `render_markdown`. -/
def renderEvents (hl : Highlighter) (s : MarkdownRenderer)
    (evs : List MdEvent) : MarkdownRenderer :=
  evs.foldl (MarkdownRenderer.step hl) s

/-- `render_markdown`, over an already-parsed event stream. -/
def renderMarkdownEvents (hl : Highlighter) (evs : List MdEvent)
    (max_width indent : Nat) : MarkdownRender :=
  (renderEvents hl (MarkdownRenderer.new max_width indent) evs).finish

/-! ## LinkHitProjector (`IssueConversation::render_body_links`) -/

/-- One draw instruction for the hyperlink widget, in viewport-local
coordinates. -/
structure Draw where
  row : Nat
  col : Nat
  width : Nat
  label : String
  url : String
deriving DecidableEq

/-- Drop trailing characters satisfying `p`. -/
def dropTrailing (p : Char → Bool) (cs : List Char) : List Char :=
  (cs.reverse.dropWhile p).reverse

/-- The per-segment body of the `render_body_links` loop: trim the label,
drop invisible or out-of-view segments, clip the width to the viewport. -/
def projectSeg (line_offset vw vh : Nat) (link : RenderedLink) :
    Option Draw :=
  let lead := link.label.data.takeWhile rustIsWhitespace
  let trimmed := dropTrailing rustIsWhitespace
    (link.label.data.dropWhile rustIsWhitespace)
  if trimmed.isEmpty then none
  else
    let leading_ws_width := displayWidthL lead
    let link_col := link.col + leading_ws_width
    let link_width := displayWidthL trimmed
    if link_width = 0 then none
    else if link.line < line_offset then none
    else
      let local_y := link.line - line_offset
      if vh ≤ local_y ∨ vw ≤ link_col then none
      else
        let available := vw - link_col
        if available = 0 then none
        else some { row := local_y, col := link_col
                    width := min available link_width
                    label := String.mk trimmed, url := link.url }

/-- `render_body_links` as a pure projection: the list of draw calls it
issues for a viewport of `vw × vh` cells, in order. -/
def projectLinks (links : List RenderedLink) (line_offset vw vh : Nat) :
    List Draw :=
  if links.isEmpty then []
  else if vw = 0 ∨ vh = 0 then []
  else links.filterMap (projectSeg line_offset vw vh)

/-! ## Spec-side definitions and shared test fixtures -/

/-- A trivial highlighter that fails on every line (used for concrete
documents that contain no code block). -/
def hlNone : Highlighter := fun _ _ => none

/-- Concatenated text of a line's spans. -/
def lineText (l : RLine) : String :=
  (l.map (fun sp => sp.content)).foldl (fun a b => a ++ b) ""

/-- Spec-side truncation accumulator, following the spec's words:
"accumulate whole characters while running width + next char width + 3
≤ max width". -/
def truncSpecTake (mw : Nat) : Nat → List Char → List Char
  | _, [] => []
  | run, c :: cs =>
    if run + charWidth c + 3 ≤ mw then c :: truncSpecTake mw (run + charWidth c) cs
    else []

/-- The link hit projection exactly as the claim words it: skip a segment
iff its label is entirely whitespace, its line is above the scroll offset,
or its projected row/column falls outside the viewport; the draw carries
the trimmed label at `row = line - offset`,
`col = segment col + width of trimmed leading whitespace`, with
`width = min(trimmed width, remaining horizontal space)`. -/
def specProjectSegClaimed (line_offset vw vh : Nat) (link : RenderedLink) :
    Option Draw :=
  let lead := link.label.data.takeWhile rustIsWhitespace
  let trimmed := dropTrailing rustIsWhitespace
    (link.label.data.dropWhile rustIsWhitespace)
  if link.label.data.all rustIsWhitespace then none
  else if link.line < line_offset then none
  else
    let row := link.line - line_offset
    let col := link.col + displayWidthL lead
    if vh ≤ row ∨ vw ≤ col then none
    else some { row := row, col := col
                width := min (displayWidthL trimmed) (vw - col)
                label := String.mk trimmed, url := link.url }

/-- The projection with the claim's skip condition amended: a segment is
also skipped when its whitespace-trimmed label has zero display width. -/
def specProjectSegAmended (line_offset vw vh : Nat) (link : RenderedLink) :
    Option Draw :=
  let lead := link.label.data.takeWhile rustIsWhitespace
  let trimmed := dropTrailing rustIsWhitespace
    (link.label.data.dropWhile rustIsWhitespace)
  if displayWidthL trimmed = 0 then none
  else if link.line < line_offset then none
  else
    let row := link.line - line_offset
    let col := link.col + displayWidthL lead
    if vh ≤ row ∨ vw ≤ col then none
    else some { row := row, col := col
                width := min (displayWidthL trimmed) (vw - col)
                label := String.mk trimmed, url := link.url }

/-- Event stream of the markdown input `[label](http://x)`. -/
def evLinkLabel : List MdEvent :=
  [.start .paragraph, .start (.link "http://x"), .text "label",
   .stop .link, .stop .paragraph]

/-- Event stream of the markdown input `left http://x right`: the parser
options the program enables do not autolink bare URLs, so the whole
phrase arrives as a single text event. -/
def evBareUrl : List MdEvent :=
  [.start .paragraph, .text "left http://x right", .stop .paragraph]

/-- Event stream of a Warning quote opening with `[!WARNING] Careful`. -/
def evWarnCareful : List MdEvent :=
  [.start (.blockQuote (some .warning)), .start .paragraph,
   .text "[!WARNING] Careful", .softBreak, .text "body",
   .stop .paragraph, .stop .blockQuote]

/-- Event stream of the plain paragraph `hello`. -/
def evHello : List MdEvent :=
  [.start .paragraph, .text "hello", .stop .paragraph]

/-- Events allowed by the amended width-invariant claim: no code block
and no admonition-tagged block quote (both emit unwrapped lines). -/
def allowedWidthEvent : MdEvent → Bool
  | .start (.codeBlock _) => false
  | .start (.blockQuote (some _)) => false
  | _ => true

/-- Order relation between successive tracked link segments: a later
segment sits on a strictly later line, or further right on the same line,
strictly beyond the previous end when the urls coincide (otherwise the two
would have been merged). -/
def segStep (a b : RenderedLink) : Prop :=
  a.line < b.line ∨
    (a.line = b.line ∧ a.col + a.width ≤ b.col ∧
      (a.url = b.url → a.col + a.width < b.col))

/-- Invariant tying the tracked link list to the builder cursor: the list
is `segStep`-chained, every segment is at least one cell wide, and the last
segment ends at or before the current cursor position of the current
line. -/
structure LinksInv (s : MarkdownRenderer) : Prop where
  chain : List.Chain' segStep s.links
  widths : ∀ l ∈ s.links, 1 ≤ l.width
  last : ∀ l, s.links.getLast? = some l →
    l.line < s.lines.length ∨
      (l.line = s.lines.length ∧ l.col + l.width ≤ s.current_width)

/-- Event stream of `[A very long linked label](https://example.com)`,
which wraps into several segments at width 12. -/
def evWrapLink : List MdEvent :=
  [.start .paragraph, .start (.link "https://example.com"),
   .text "A very long linked label", .stop .link, .stop .paragraph]

/-- A line respects the width budget unless it carries a long-word
hard-break fragment. -/
def lineOKW (W : Nat) (l : RLine) : Prop :=
  lineWidth l ≤ W ∨ ∃ sp ∈ l, sp.fromBreak = true

/-- Every long-word fragment of the line fits the width budget on its
own. -/
def fragsOKW (W : Nat) (l : RLine) : Prop :=
  ∀ sp ∈ l, sp.fromBreak = true → displayWidth sp.content ≤ W

/-- State invariant behind the amended width claim, for event streams
without code blocks or admonition-tagged quotes. -/
structure WidthInv (s : MarkdownRenderer) : Prop where
  hM : 10 ≤ s.max_width
  hInd : s.indent + 3 ≤ s.max_width
  hPref : s.list_pref = none ∨ s.list_pref = some " "
  hAdm : s.block_quote_style = none
  hCode : s.in_code_block = false
  hBuf : s.code_block_buf = ""
  hLines : ∀ l ∈ s.lines, lineOKW s.max_width l ∧ fragsOKW s.max_width l
  hCurLe : lineWidth s.current_line ≤ s.current_width
  hCur : s.current_width ≤ s.max_width ∨
    ∃ sp ∈ s.current_line, sp.fromBreak = true
  hFrag : fragsOKW s.max_width s.current_line
  hEmpty : s.current_line = [] → s.current_width = 0
  hGe : s.current_line ≠ [] → s.pref_width ≤ s.current_width

/-! ## Theorems -/

/-- C8: rendering the hyperlink widget into a zero-width or zero-height
destination rectangle performs no writes: the grid is unchanged. -/
theorem link_render_zero_area_noop (l : Link) (osc8 : Bool) (area : Rect)
    (buf : Buffer) (h : area.width = 0 ∨ area.height = 0) :
    l.render osc8 area buf = buf := by
  unfold Link.render
  rw [if_pos h]

/-- Witness for C8 at a concrete zero-width rectangle. -/
theorem link_render_zero_area_noop_witness :
    (Link.new "ratatui" "https://x").render true ⟨0, 0, 0, 1⟩
      ⟨⟨0, 0, 2, 1⟩, [{}, {}]⟩ = ⟨⟨0, 0, 2, 1⟩, [{}, {}]⟩ :=
  link_render_zero_area_noop (Link.new "ratatui" "https://x") true
    ⟨0, 0, 0, 1⟩ ⟨⟨0, 0, 2, 1⟩, [{}, {}]⟩ (Or.inl rfl)

/-- C9: the renderer silently clamps any requested `max_width ≤ 10` up to
10, so the document produced at width `w ∈ (0, 10]` is identical to the one
produced at width 10, for every event stream, highlighter and indent. -/
theorem render_clamps_small_widths (hl : Highlighter) (evs : List MdEvent)
    (indent w : Nat) (hpos : 0 < w) (hle : w ≤ 10) :
    renderMarkdownEvents hl evs w indent =
      renderMarkdownEvents hl evs 10 indent := by
  unfold renderMarkdownEvents
  have hnew : MarkdownRenderer.new w indent = MarkdownRenderer.new 10 indent := by
    unfold MarkdownRenderer.new
    rw [Nat.max_eq_right hle, Nat.max_self]
  rw [hnew]

/-- Witness for C9 at `w = 3` on the `hello` stream. -/
theorem render_clamps_small_widths_witness :
    0 < 3 ∧ 3 ≤ 10 ∧
      renderMarkdownEvents hlNone evHello 3 0 =
        renderMarkdownEvents hlNone evHello 10 0 :=
  ⟨by decide, by decide,
    render_clamps_small_widths hlNone evHello 0 3 (by decide) (by decide)⟩

/-- `finish` always yields at least one line. -/
theorem finish_lines_ne_nil (s : MarkdownRenderer) : s.finish.lines ≠ [] := by
  unfold MarkdownRenderer.finish
  cases hE : ((s.flush_line.lines.reverse.dropWhile List.isEmpty).reverse).isEmpty
  · simp only [hE, Bool.false_eq_true, if_false]
    intro hnil
    rw [hnil] at hE
    simp at hE
  · simp only [hE, if_true]
    simp

/-- C10: popping a style with an empty style stack is a no-op that leaves
the whole state (in particular the current style) unchanged, and the
renderer is total: every event stream, however unbalanced, yields a
document with at least one line. -/
theorem pop_style_empty_noop_and_total :
    (∀ s : MarkdownRenderer, s.style_stack = [] → s.pop_style = s) ∧
    (∀ (hl : Highlighter) (evs : List MdEvent) (w indent : Nat),
      (renderMarkdownEvents hl evs w indent).lines ≠ []) := by
  constructor
  · intro s h
    unfold MarkdownRenderer.pop_style
    rw [h]
    rfl
  · intro hl evs w indent
    exact finish_lines_ne_nil _

/-- Witness for C10: pop on the freshly constructed (empty-stack) state,
and totality on the empty event stream. -/
theorem pop_style_empty_noop_and_total_witness :
    (MarkdownRenderer.new 5 0).pop_style = MarkdownRenderer.new 5 0 ∧
      (renderMarkdownEvents hlNone [] 7 2).lines ≠ [] :=
  ⟨pop_style_empty_noop_and_total.1 (MarkdownRenderer.new 5 0) rfl,
    pop_style_empty_noop_and_total.2 hlNone [] 7 2⟩

/-- The source's truncation accumulator and the spec's accumulate-while
loop agree. -/
theorem truncAccum_eq_spec (mw : Nat) :
    ∀ (cs : List Char) (run : Nat), truncAccum mw run cs = truncSpecTake mw run cs := by
  intro cs
  induction cs with
  | nil => intro run; rfl
  | cons c cs ih =>
    intro run
    unfold truncAccum truncSpecTake
    by_cases h : run + charWidth c + 3 ≤ mw
    · rw [if_neg (by omega), if_pos h, ih]
    · rw [if_pos (by omega), if_neg h]

/-- A string of positive display width is non-empty. -/
theorem displayWidth_pos_beq_false (s : String) (h : 0 < displayWidth s) :
    (s == "") = false := by
  cases hb : s == ""
  · rfl
  · have hs : s = "" := by simpa using hb
    subst hs
    simp [displayWidth, displayWidthL] at h

/-- C3 (amended): hyperrat `truncate_label` behaviour. The `w = 0` case is
checked first, so the "label already fits" clause only applies for `w > 0`;
at `w = 0` the result is empty and truncation is reported exactly when the
label is non-empty. In the remaining cases: dots when `w ≤ 3`, otherwise the
greedy whole-character prefix followed by the literal `"..."`. -/
theorem truncate_label_spec (label : String) (w : Nat) :
    (0 < w → displayWidth label ≤ w → truncate_label label w = (label, false)) ∧
    (w ≤ 3 → ¬ displayWidth label ≤ w →
      truncate_label label w = (repeatString "." w, true)) ∧
    (3 < w → ¬ displayWidth label ≤ w →
      truncate_label label w =
        (String.mk (truncSpecTake w 0 label.data) ++ "...", true)) ∧
    truncate_label label 0 = ("", !(label == "")) := by
  refine ⟨?_, ?_, ?_, ?_⟩
  · intro hw hfit
    unfold truncate_label
    rw [if_neg (by omega), if_pos hfit]
  · intro hw hfit
    unfold truncate_label
    by_cases h0 : w = 0
    · subst h0
      rw [if_pos rfl, displayWidth_pos_beq_false label (by omega)]
      rfl
    · rw [if_neg h0, if_neg hfit, if_pos hw]
  · intro hw hfit
    unfold truncate_label
    rw [if_neg (by omega), if_neg hfit, if_neg (by omega),
      truncAccum_eq_spec]
  · rfl

/-- Counterexample to C3 as stated: a non-empty label made of one combining
character has display width 0 ≤ 0, yet `truncate_label` at width 0 does not
return it unchanged without truncation — the `w = 0` rule wins. -/
theorem truncate_label_claim_cex :
    displayWidth "̀" ≤ 0 ∧ truncate_label "̀" 0 ≠ ("̀", false) := by
  constructor
  · decide
  · decide

/-- Witness for C3 exercising the fits clause and the greedy-dots clause at
concrete inputs. -/
theorem truncate_label_spec_witness :
    (0 < 8 ∧ displayWidth "hello" ≤ 8 ∧
      truncate_label "hello" 8 = ("hello", false)) ∧
    (3 < 8 ∧ ¬ displayWidth "hello world" ≤ 8 ∧
      truncate_label "hello world" 8 =
        (String.mk (truncSpecTake 8 0 "hello world".data) ++ "...", true)) :=
  ⟨⟨by decide, by decide,
      (truncate_label_spec "hello" 8).1 (by decide) (by decide)⟩,
    ⟨by decide, by decide,
      (truncate_label_spec "hello world" 8).2.2.1 (by decide) (by decide)⟩⟩

/-- The loop body of `render_body_links` agrees pointwise with the amended
spec-side projection. -/
theorem projectSeg_eq_amended (lo vw vh : Nat) (link : RenderedLink) :
    projectSeg lo vw vh link = specProjectSegAmended lo vw vh link := by
  unfold projectSeg specProjectSegAmended
  simp only
  by_cases h1 : (dropTrailing rustIsWhitespace
      (link.label.data.dropWhile rustIsWhitespace)).isEmpty
  · have h0 : displayWidthL (dropTrailing rustIsWhitespace
        (link.label.data.dropWhile rustIsWhitespace)) = 0 := by
      rw [List.isEmpty_iff] at h1
      rw [h1]
      rfl
    rw [if_pos h1, if_pos h0]
  · rw [if_neg h1]
    by_cases h2 : displayWidthL (dropTrailing rustIsWhitespace
        (link.label.data.dropWhile rustIsWhitespace)) = 0
    · rw [if_pos h2, if_pos h2]
    · rw [if_neg h2, if_neg h2]
      by_cases h3 : link.line < lo
      · rw [if_pos h3, if_pos h3]
      · rw [if_neg h3, if_neg h3]
        by_cases h4 : vh ≤ link.line - lo ∨
            vw ≤ link.col + displayWidthL
              (link.label.data.takeWhile rustIsWhitespace)
        · rw [if_pos h4, if_pos h4]
        · rw [if_neg h4, if_neg h4,
            if_neg (by omega : ¬ (vw - (link.col + displayWidthL
              (link.label.data.takeWhile rustIsWhitespace)) = 0)),
            Nat.min_comm]

/-- C6 (amended): over a non-empty viewport, the link hit projection
produces exactly one draw per surviving segment as the claim describes,
with the skip condition amended from "label entirely whitespace" to
"whitespace-trimmed label has zero display width" (which also covers
non-whitespace labels of zero-width characters). -/
theorem render_body_links_projection (links : List RenderedLink)
    (lo vw vh : Nat) (hvw : 0 < vw) (hvh : 0 < vh) :
    projectLinks links lo vw vh =
      links.filterMap (specProjectSegAmended lo vw vh) := by
  unfold projectLinks
  by_cases hE : links.isEmpty
  · rw [if_pos hE, List.isEmpty_iff] at *
    rw [hE]
    rfl
  · rw [if_neg hE, if_neg (by omega)]
    rw [funext (projectSeg_eq_amended lo vw vh)]

/-- Counterexample to C6 as stated: a segment whose label is the single
combining character `U+0300` is not entirely whitespace and projects inside
a 10×3 viewport, so the claim says it survives and yields a draw, yet the
code drops it (its trimmed display width is 0). -/
theorem render_body_links_claim_cex :
    projectLinks [⟨0, 0, "̀", "u", 0⟩] 0 10 3 = [] ∧
      [(⟨0, 0, "̀", "u", 0⟩ : RenderedLink)].filterMap
        (specProjectSegClaimed 0 10 3) ≠ [] := by
  constructor
  · decide
  · decide

/-- Witness for C6 on a concrete segment list and viewport. -/
theorem render_body_links_projection_witness :
    0 < 10 ∧ 0 < 3 ∧
      projectLinks [⟨0, 2, "  docs ", "u", 7⟩] 0 10 3 =
        [(⟨0, 2, "  docs ", "u", 7⟩ : RenderedLink)].filterMap
          (specProjectSegAmended 0 10 3) :=
  ⟨by decide, by decide,
    render_body_links_projection [⟨0, 2, "  docs ", "u", 7⟩] 0 10 3
      (by decide) (by decide)⟩

/-- C5 counterexample to the claim as stated: the bare URL in
`left http://x right` is not autolinked by the parser options the program
enables, so the rendered document contains zero link segments, not exactly
one. -/
theorem plain_spaces_claim_cex :
    ¬ (renderMarkdownEvents hlNone evBareUrl 80 0).links.length = 1 := by
  decide

/-- C5: amended. `left http://x right` at width 80, indent 0, renders as
exactly one line whose concatenated span text is the input string
unchanged; since bare URLs are not autolinked, the document tracks no
link segments at all. -/
theorem plain_spaces_amended :
    (renderMarkdownEvents hlNone evBareUrl 80 0).lines.map lineText =
        ["left http://x right"] ∧
      (renderMarkdownEvents hlNone evBareUrl 80 0).links = [] := by
  refine ⟨by decide, by decide⟩

/-- With zero indent, outside quotes and lists, the line prefix is empty. -/
theorem pref_width_zero (s : MarkdownRenderer) (hind : s.indent = 0)
    (hbq : s.in_block_quote = false) (hlp : s.list_pref = none) :
    s.pref_width = 0 := by
  unfold MarkdownRenderer.pref_width
  simp [hind, hbq, hlp]

/-- `start_line` adds nothing when there is no indent, quote or list prefix. -/
theorem start_line_id (s : MarkdownRenderer) (hind : s.indent = 0)
    (hbq : s.in_block_quote = false) (hlp : s.list_pref = none) :
    s.start_line = s := by
  unfold MarkdownRenderer.start_line
  simp [hind, hbq, hlp]

/-- Pushing a fitting word onto a fresh prefix-free line places it at column 0. -/
theorem push_word_clean (s : MarkdownRenderer) (word : String) (style : Style)
    (hline : s.current_line = []) (hcw : s.current_width = 0)
    (hind : s.indent = 0) (hbq : s.in_block_quote = false)
    (hlp : s.list_pref = none) (hpend : s.pending_space = false)
    (hww : displayWidth word ≤ s.max_width) :
    s.push_word word style =
      ({ s with current_line := [RSpan.styled word style]
                current_width := displayWidth word
                pending_space := false } :
        MarkdownRenderer).push_link_segment word 0 (displayWidth word) := by
  have hpw := pref_width_zero s hind hbq hlp
  have hsl := start_line_id s hind hbq hlp
  simp only [MarkdownRenderer.push_word, hpw, hcw, hline, hpend]
  rw [if_neg (by omega : ¬ (s.max_width - 0 < displayWidth word))]
  simp [hsl, hline, hcw, hpend]

/-- `push_text` on whitespace-free text reduces to a single `push_word`. -/
theorem push_text_go_noWs (style : Style) :
    ∀ (cs buf : List Char) (s : MarkdownRenderer),
      (∀ c ∈ cs, ¬(c = '\n') ∧ rustIsWhitespace c = false) →
      buf ++ cs ≠ [] →
      s.push_text_go style buf cs = s.push_word (String.mk (buf ++ cs)) style := by
  intro cs
  induction cs with
  | nil =>
    intro buf s _ hne
    unfold MarkdownRenderer.push_text_go
    rw [List.append_nil] at hne ⊢
    rw [if_neg (by simpa [List.isEmpty_iff] using hne)]
  | cons c cs ih =>
    intro buf s hok hne
    unfold MarkdownRenderer.push_text_go
    rw [if_neg (hok c (List.mem_cons_self c cs)).1,
      if_neg (by simp [(hok c (List.mem_cons_self c cs)).2])]
    rw [ih (buf ++ [c]) s (fun d hd => hok d (List.mem_cons_of_mem c hd))
      (by simp)]
    rw [List.append_assoc]
    rfl

/-- Outside quotes and code blocks, a plain text token is one word push. -/
theorem text_plain_word (s : MarkdownRenderer)
    (h1 : s.in_block_quote = false) (h2 : s.in_code_block = false) :
    s.text "label" = s.push_word "label" s.current_style := by
  unfold MarkdownRenderer.text MarkdownRenderer.text_body
  rw [if_neg (by simp [h1]), if_neg (by simp [h2])]
  unfold MarkdownRenderer.push_text
  rw [push_text_go_noWs _ _ _ _ (by decide) (by decide)]
  congr 1

/-- Recording the first link fragment of a document. -/
theorem push_link_segment_first (s : MarkdownRenderer)
    (h1 : s.active_link_url = some "http://x") (h2 : s.links = [])
    (h3 : s.lines = []) :
    s.push_link_segment "label" 0 (displayWidth "label") =
      { s with links := [⟨0, 0, "label", "http://x", 5⟩] } := by
  have h5 : displayWidth "label" = 5 := by decide
  unfold MarkdownRenderer.push_link_segment MarkdownRenderer.current_line_index
  rw [h1, h2, h3, h5]
  simp

/-- C4: rendering `[label](http://x)` at any width at least the display
width of "label" (indent 0) produces exactly one link segment, with label
`label` and url `http://x`. -/
theorem link_roundtrip (hl : Highlighter) (w : Nat)
    (hw : displayWidth "label" ≤ w) :
    (renderMarkdownEvents hl evLinkLabel w 0).links =
      [⟨0, 0, "label", "http://x", 5⟩] := by
  unfold renderMarkdownEvents renderEvents evLinkLabel
  simp only [List.foldl, MarkdownRenderer.step]
  set s0 := MarkdownRenderer.new w 0 with hs0
  have h1 : s0.start_tag .paragraph = s0 := rfl
  rw [h1]
  have h2 : s0.start_tag (.link "http://x") =
      { s0 with active_link_url := some "http://x"
                style_stack := [{}]
                current_style := { fg := some Color.blue, underlined := true } } := by
    simp [MarkdownRenderer.start_tag, MarkdownRenderer.push_style, hs0,
      MarkdownRenderer.new, Style.patch]
  rw [h2]
  rw [text_plain_word _ (by simp [hs0, MarkdownRenderer.new])
    (by simp [hs0, MarkdownRenderer.new])]
  rw [push_word_clean _ _ _ (by simp [hs0, MarkdownRenderer.new])
    (by simp [hs0, MarkdownRenderer.new]) (by simp [hs0, MarkdownRenderer.new])
    (by simp [hs0, MarkdownRenderer.new]) (by simp [hs0, MarkdownRenderer.new])
    (by simp [hs0, MarkdownRenderer.new])
    (by
      have h5 : displayWidth "label" = 5 := by decide
      have h10 : 10 ≤ (MarkdownRenderer.new w 0).max_width := by
        simp [MarkdownRenderer.new]
      simp only [hs0] at *
      omega)]
  rw [push_link_segment_first _ (by simp [hs0, MarkdownRenderer.new])
    (by simp [hs0, MarkdownRenderer.new]) (by simp [hs0, MarkdownRenderer.new])]
  rfl

/-- Witness for C4 at concrete width 40. -/
theorem link_roundtrip_witness :
    displayWidth "label" ≤ 40 ∧
      (renderMarkdownEvents hlNone evLinkLabel 40 0).links =
        [⟨0, 0, "label", "http://x", 5⟩] :=
  ⟨by decide, link_roundtrip hlNone 40 (by decide)⟩

/-- Effect of a matching admonition marker text token on the builder. -/
theorem text_admonition_calc (s : MarkdownRenderer) (t : String)
    (sty : AdmonitionStyle) (title : String)
    (hbq : s.in_block_quote = true) (hpend : s.block_quote_title_pending = true)
    (hsty : s.block_quote_style = some sty)
    (hext : extract_admonition_title t sty.marker = some title)
    (hline : s.current_line = []) (hind : s.indent = 0)
    (hlp : s.list_pref = none) :
    s.text t =
      { s with
        lines := s.lines ++
          [[RSpan.styled " " { fg := some sty.border_color },
            RSpan.styled (if title == "" then sty.default_title else title)
              sty.title_style]]
        current_line := [], current_width := 0, pending_space := false
        block_quote_title_pending := false } := by
  simp [MarkdownRenderer.text, MarkdownRenderer.push_admonition_header,
    MarkdownRenderer.flush_line, MarkdownRenderer.start_line, hbq, hpend,
    hsty, hext, hline, hind, hlp, borderStyle]

/-- C7: inside a block quote tagged with an admonition kind, a first text
token matching `[!MARKER]` (case-insensitively) against the kind's marker
becomes a title header line styled with the kind's title style — carrying
the trailing custom title, or the kind's default title when none — and the
token is not emitted as body text (the current line stays empty and only
the one header line is added); concretely, a Warning quote opening with
`[!WARNING] Careful` yields a Warning-styled title line `Careful` and no
body line contains `Careful`. -/
theorem admonition_title_header :
    (∀ (s : MarkdownRenderer) (t : String) (sty : AdmonitionStyle)
        (title : String),
      s.in_block_quote = true → s.block_quote_title_pending = true →
      s.block_quote_style = some sty →
      extract_admonition_title t sty.marker = some title →
      s.current_line = [] → s.indent = 0 → s.list_pref = none →
      (s.text t).lines = s.lines ++
          [[RSpan.styled " " { fg := some sty.border_color },
            RSpan.styled (if title == "" then sty.default_title else title)
              sty.title_style]] ∧
        (s.text t).current_line = [] ∧
        (s.text t).block_quote_title_pending = false ∧
        (s.text t).links = s.links) ∧
    (renderMarkdownEvents hlNone evWarnCareful 80 0).lines =
      [[RSpan.styled " " { fg := some Color.yellow },
        RSpan.styled "Careful" { fg := some Color.yellow, bold := true }],
       [RSpan.styled " " { fg := some Color.yellow }, RSpan.raw "body"]] := by
  constructor
  · intro s t sty title hbq hpend hsty hext hline hind hlp
    rw [text_admonition_calc s t sty title hbq hpend hsty hext hline hind hlp]
    exact ⟨rfl, rfl, rfl, rfl⟩
  · decide

/-- Witness for C7: the general half applied to a concrete admonition
state. -/
theorem admonition_title_header_witness :
    (({ MarkdownRenderer.new 80 0 with
        in_block_quote := true,
        block_quote_title_pending := true,
        block_quote_style := some ⟨"WARNING", "Warning", Color.yellow,
          { fg := some Color.yellow, bold := true }⟩ } :
        MarkdownRenderer).text "[!WARNING] Careful").lines =
      [[RSpan.styled " " { fg := some Color.yellow },
        RSpan.styled "Careful" { fg := some Color.yellow, bold := true }]] :=
  (admonition_title_header.1
    ({ MarkdownRenderer.new 80 0 with
        in_block_quote := true,
        block_quote_title_pending := true,
        block_quote_style := some ⟨"WARNING", "Warning", Color.yellow,
          { fg := some Color.yellow, bold := true }⟩ })
    "[!WARNING] Careful"
    ⟨"WARNING", "Warning", Color.yellow,
      { fg := some Color.yellow, bold := true }⟩
    "Careful" rfl rfl rfl (by decide) rfl rfl rfl).1.trans (by decide)

/-- `segStep` composes across a middle segment of positive width. -/
theorem segStep_trans (a c b : RenderedLink) (h1 : segStep a c)
    (h2 : segStep c b) (hcw : 1 ≤ c.width) : segStep a b := by
  unfold segStep at *
  rcases h1 with h1 | ⟨e1, l1, _⟩
  · rcases h2 with h2 | ⟨e2, _, _⟩
    · exact Or.inl (h1.trans h2)
    · exact Or.inl (by omega)
  · rcases h2 with h2 | ⟨e2, l2, _⟩
    · exact Or.inl (by omega)
    · exact Or.inr ⟨by omega, by omega, fun _ => by omega⟩

/-- `segStep` only inspects the line, column and url of its right argument. -/
theorem segStep_congr_right (x last b : RenderedLink) (h : segStep x last)
    (hl : b.line = last.line) (hc : b.col = last.col)
    (hu : b.url = last.url) : segStep x b := by
  unfold segStep at *
  rcases h with h | ⟨e, l, u⟩
  · exact Or.inl (by omega)
  · exact Or.inr ⟨by omega, by omega, fun he => by
      have := u (by rw [← hu, he])
      omega⟩

/-- A `segStep` chain of positive-width segments is pairwise ordered. -/
theorem chain'_segStep_pairwise :
    ∀ (L : List RenderedLink), (∀ l ∈ L, 1 ≤ l.width) →
      List.Chain' segStep L → List.Pairwise segStep L := by
  intro L
  induction L with
  | nil => intro _ _; exact List.Pairwise.nil
  | cons a L ih =>
    intro hw hch
    rw [List.chain'_cons'] at hch
    refine List.Pairwise.cons ?_ (ih (fun l hl => hw l (List.mem_cons_of_mem a hl)) hch.2)
    have key : ∀ (M : List RenderedLink) (x : RenderedLink),
        (∀ l ∈ M, 1 ≤ l.width) → (∀ b ∈ M.head?, segStep x b) →
        List.Chain' segStep M → ∀ b ∈ M, segStep x b := by
      intro M
      induction M with
      | nil => intro x _ _ _ b hb; cases hb
      | cons c M ihM =>
        intro x hwM hhd hchM b hb
        have hxc : segStep x c := hhd c rfl
        rcases List.mem_cons.mp hb with hb | hb
        · rw [hb]; exact hxc
        · rw [List.chain'_cons'] at hchM
          exact ihM x (fun l hl => hwM l (List.mem_cons_of_mem c hl))
            (fun d hd => segStep_trans x c d hxc (hchM.1 d hd)
              (hwM c (List.mem_cons_self c M)))
            hchM.2 b hb
    exact key L a (fun l hl => hw l (List.mem_cons_of_mem a hl)) hch.1 hch.2

/-- `LinksInv` transfers along updates that keep the links and lines and do
not move the cursor left. -/
theorem linksInv_same (s s' : MarkdownRenderer) (h : LinksInv s)
    (hlk : s'.links = s.links) (hln : s'.lines = s.lines)
    (hcw : s.current_width ≤ s'.current_width) : LinksInv s' := by
  refine ⟨hlk ▸ h.chain, hlk ▸ h.widths, ?_⟩
  intro l hl
  rw [hlk] at hl
  rw [hln]
  rcases h.last l hl with h1 | ⟨h1, h2⟩
  · exact Or.inl h1
  · exact Or.inr ⟨h1, h2.trans hcw⟩

/-- `flush_line` preserves the link invariant. -/
theorem linksInv_flush (s : MarkdownRenderer) (h : LinksInv s) :
    LinksInv s.flush_line := by
  unfold MarkdownRenderer.flush_line
  by_cases he : s.current_line.isEmpty
  · rw [if_pos he]
    exact linksInv_same s _ h rfl rfl (le_refl _)
  · rw [if_neg he]
    refine ⟨h.chain, h.widths, ?_⟩
    intro l hl
    simp only [List.length_append, List.length_cons, List.length_nil]
    rcases h.last l hl with h1 | ⟨h1, _⟩
    · exact Or.inl (by omega)
    · exact Or.inl (by omega)

/-- `push_blank_line` preserves the link invariant. -/
theorem linksInv_blank (s : MarkdownRenderer) (h : LinksInv s) :
    LinksInv s.push_blank_line := by
  unfold MarkdownRenderer.push_blank_line
  by_cases hc : s.lines.getLast?.isSome ∧ (s.lines.getLast?.getD []).isEmpty
  · rw [if_pos hc]; exact h
  · rw [if_neg hc]
    refine ⟨h.chain, h.widths, ?_⟩
    intro l hl
    simp only [List.length_append, List.length_cons, List.length_nil]
    rcases h.last l hl with h1 | ⟨h1, _⟩
    · exact Or.inl (by omega)
    · exact Or.inl (by omega)

/-- `start_line` keeps links and lines and never moves the cursor left. -/
theorem start_line_fields (s : MarkdownRenderer) :
    s.start_line.links = s.links ∧ s.start_line.lines = s.lines ∧
      s.current_width ≤ s.start_line.current_width := by
  unfold MarkdownRenderer.start_line
  by_cases he : !s.current_line.isEmpty
  · rw [if_pos he]
    exact ⟨rfl, rfl, le_refl _⟩
  · rw [if_neg he]
    by_cases h1 : 0 < s.indent <;> by_cases h2 : s.in_block_quote = true <;>
      cases hlp : s.list_pref <;> simp [h1, h2, hlp] <;> omega

/-- `start_line` preserves the link invariant. -/
theorem linksInv_start_line (s : MarkdownRenderer) (h : LinksInv s) :
    LinksInv s.start_line :=
  linksInv_same s _ h (start_line_fields s).1 (start_line_fields s).2.1
    (start_line_fields s).2.2

/-- `push_link_segment` establishes the invariant when the new fragment
starts at or after the end of the last tracked segment and ends at or
before the cursor. -/
theorem push_link_segment_inv (s : MarkdownRenderer) (label : String)
    (col width : Nat)
    (hch : List.Chain' segStep s.links)
    (hwd : ∀ l ∈ s.links, 1 ≤ l.width)
    (hlast : ∀ l, s.links.getLast? = some l →
      l.line < s.lines.length ∨
        (l.line = s.lines.length ∧ l.col + l.width ≤ col))
    (hcw : col + width ≤ s.current_width) :
    LinksInv (s.push_link_segment label col width) := by
  have hbase : LinksInv s := by
    refine ⟨hch, hwd, ?_⟩
    intro l hl
    rcases hlast l hl with h1 | ⟨h1, h2⟩
    · exact Or.inl h1
    · exact Or.inr ⟨h1, by omega⟩
  unfold MarkdownRenderer.push_link_segment
  split
  · exact hbase
  · rename_i url hurl
    split
    · exact hbase
    · rename_i hguard
      have hwpos : 1 ≤ width := by
        rcases Nat.eq_zero_or_pos width with h0 | h0
        · exact absurd (Or.inr h0) hguard
        · exact h0
      split
      · rename_i last hlst
        simp only [MarkdownRenderer.current_line_index]
        split
        · rename_i hmerge
          have hne : s.links ≠ [] := by
            intro hn
            rw [hn] at hlst
            cases hlst
          have hsplit : s.links.dropLast ++ [last] = s.links := by
            have h1 := List.getLast?_eq_getLast s.links hne
            rw [hlst, Option.some.injEq] at h1
            rw [h1]
            exact List.dropLast_append_getLast hne
          have hchsp : List.Chain' segStep (s.links.dropLast ++ [last]) := by
            rw [hsplit]; exact hch
          rw [List.chain'_append] at hchsp
          refine ⟨?_, ?_, ?_⟩
          · rw [List.chain'_append]
            refine ⟨hchsp.1, List.chain'_singleton _, ?_⟩
            intro x hx y hy
            simp only [List.head?_cons, Option.mem_def, Option.some.injEq]
              at hy
            refine segStep_congr_right x last y
              (hchsp.2.2 x hx last (by simp)) ?_ ?_ ?_ <;> rw [← hy]
          · intro l hl
            rcases List.mem_append.mp hl with hl | hl
            · exact hwd l (by rw [← hsplit]; exact List.mem_append_left _ hl)
            · simp only [List.mem_singleton] at hl
              rw [hl]
              have := hwd last (by
                rw [← hsplit]; exact List.mem_append_right _ (by simp))
              simp only
              omega
          · intro l hl
            rw [List.getLast?_concat, Option.some.injEq] at hl
            rw [← hl]
            rcases hlast last hlst with h1 | ⟨h1, h2⟩
            · exact Or.inl h1
            · refine Or.inr ⟨h1, ?_⟩
              simp only
              omega
        · rename_i hmerge
          have hstep : segStep last
              ⟨s.lines.length, col, label, url, width⟩ := by
            rcases hlast last hlst with h1 | ⟨h1, h2⟩
            · exact Or.inl h1
            · refine Or.inr ⟨h1, h2, ?_⟩
              intro hu
              rcases Nat.lt_or_ge (last.col + last.width) col with hlt | hge
              · exact hlt
              · exfalso
                exact hmerge ⟨hu, h1, by omega⟩
          refine ⟨?_, ?_, ?_⟩
          · rw [List.chain'_append]
            refine ⟨hch, List.chain'_singleton _, ?_⟩
            intro x hx y hy
            simp only [List.head?_cons, Option.mem_def, Option.some.injEq]
              at hy
            rw [Option.mem_def, hlst, Option.some.injEq] at hx
            rw [← hy, ← hx]
            exact hstep
          · intro l hl
            rcases List.mem_append.mp hl with hl | hl
            · exact hwd l hl
            · simp only [List.mem_singleton] at hl
              rw [hl]
              exact hwpos
          · intro l hl
            rw [List.getLast?_concat, Option.some.injEq] at hl
            rw [← hl]
            exact Or.inr ⟨rfl, hcw⟩
      · rename_i hlst
        have hnil : s.links = [] := List.getLast?_eq_none_iff.mp hlst
        refine ⟨?_, ?_, ?_⟩
        · rw [hnil]
          exact List.chain'_singleton _
        · intro l hl
          rw [hnil] at hl
          simp only [List.nil_append, List.mem_singleton] at hl
          rw [hl]
          exact hwpos
        · intro l hl
          rw [hnil] at hl
          simp only [List.nil_append, List.getLast?_singleton,
            Option.some.injEq] at hl
          rw [← hl]
          exact Or.inr ⟨rfl, hcw⟩

/-- Appending one span of width `wd` at the cursor and then recording the
matching link fragment preserves the invariant. -/
theorem push_span_then_seg (s : MarkdownRenderer) (h : LinksInv s)
    (content : String) (style : Style) (wd : Nat) (ghost : Bool) :
    LinksInv (({ s with
        current_line := s.current_line ++
          [({ content := content, style := style, fromBreak := ghost } : RSpan)]
        current_width := s.current_width + wd } :
      MarkdownRenderer).push_link_segment content s.current_width wd) := by
  apply push_link_segment_inv
  · exact h.chain
  · exact h.widths
  · intro l hl
    exact h.last l hl
  · simp

/-- Clearing or setting the pending-space flag preserves the invariant. -/
theorem linksInv_pending (s : MarkdownRenderer) (h : LinksInv s) (b : Bool) :
    LinksInv { s with pending_space := b } :=
  linksInv_same s _ h rfl rfl (le_refl _)

/-- Appending a span without tracking a fragment preserves the invariant. -/
theorem linksInv_add_span (s : MarkdownRenderer) (h : LinksInv s)
    (sp : RSpan) (wd : Nat) :
    LinksInv { s with current_line := s.current_line ++ [sp]
                      current_width := s.current_width + wd } :=
  linksInv_same s _ h rfl rfl (by simp)

/-- The long-word chunk loop preserves the invariant. -/
theorem push_parts_inv (style : Style) :
    ∀ (ps : List (List Char)) (first : Bool) (s : MarkdownRenderer),
      LinksInv s → LinksInv (s.push_parts style first ps) := by
  intro ps
  induction ps with
  | nil => intro first s h; exact h
  | cons p ps ih =>
    intro first s h
    unfold MarkdownRenderer.push_parts
    apply ih
    apply push_span_then_seg
    apply linksInv_start_line
    split
    · exact h
    · exact linksInv_flush s h

/-- `push_long_word` preserves the invariant. -/
theorem push_long_word_inv (s : MarkdownRenderer) (word : String)
    (style : Style) (h : LinksInv s) :
    LinksInv (s.push_long_word word style) := by
  unfold MarkdownRenderer.push_long_word
  exact push_parts_inv style _ true s h

/-- Variant of `push_span_then_seg` with the pending-space flag cleared in
the same update, matching the shape inside `push_word`. -/
theorem push_span_then_seg_pend (s : MarkdownRenderer) (h : LinksInv s)
    (content : String) (style : Style) (wd : Nat) (ghost : Bool) :
    LinksInv (({ s with
        current_line := s.current_line ++
          [({ content := content, style := style, fromBreak := ghost } : RSpan)]
        current_width := s.current_width + wd
        pending_space := false } :
      MarkdownRenderer).push_link_segment content s.current_width wd) := by
  apply push_link_segment_inv
  · exact h.chain
  · exact h.widths
  · intro l hl
    exact h.last l hl
  · simp

/-- `push_word` preserves the link invariant. -/
theorem push_word_inv (s : MarkdownRenderer) (word : String) (style : Style)
    (h : LinksInv s) : LinksInv (s.push_word word style) := by
  unfold MarkdownRenderer.push_word
  simp only []
  split
  · exact linksInv_pending _ (push_long_word_inv s word style h) false
  · apply push_span_then_seg_pend
    split_ifs <;>
      first
        | exact h
        | exact linksInv_start_line _ h
        | exact linksInv_start_line _ (linksInv_flush _ h)
        | exact linksInv_start_line _ (linksInv_flush _ (linksInv_start_line _ h))
        | (apply push_span_then_seg
           first
             | exact h
             | exact linksInv_start_line _ h
             | exact linksInv_start_line _ (linksInv_flush _ h)
             | exact linksInv_start_line _ (linksInv_flush _ (linksInv_start_line _ h)))
        | (apply linksInv_add_span
           first
             | exact h
             | exact linksInv_start_line _ h
             | exact linksInv_start_line _ (linksInv_flush _ h)
             | exact linksInv_start_line _ (linksInv_flush _ (linksInv_start_line _ h)))

/-- The `push_text` splitting loop preserves the link invariant. -/
theorem push_text_go_inv (style : Style) :
    ∀ (cs buf : List Char) (s : MarkdownRenderer), LinksInv s →
      LinksInv (s.push_text_go style buf cs) := by
  intro cs
  induction cs with
  | nil =>
    intro buf s h
    unfold MarkdownRenderer.push_text_go
    split
    · exact h
    · exact push_word_inv _ _ _ h
  | cons c cs ih =>
    intro buf s h
    unfold MarkdownRenderer.push_text_go
    split
    · apply ih
      apply linksInv_flush
      split
      · exact h
      · exact push_word_inv _ _ _ h
    · split
      · apply ih
        apply linksInv_pending
        split
        · exact h
        · exact push_word_inv _ _ _ h
      · exact ih _ _ h

/-- Fold preservation of a state predicate. -/
theorem foldl_preserve {α : Type} (P : MarkdownRenderer → Prop)
    (f : MarkdownRenderer → α → MarkdownRenderer)
    (hf : ∀ s a, P s → P (f s a)) :
    ∀ (l : List α) (s : MarkdownRenderer), P s → P (List.foldl f s l) := by
  intro l
  induction l with
  | nil => intro s h; exact h
  | cons a l ih => intro s h; exact ih _ (hf s a h)

/-- `rule` preserves the link invariant. -/
theorem rule_inv (s : MarkdownRenderer) (h : LinksInv s) :
    LinksInv s.rule := by
  unfold MarkdownRenderer.rule
  simp only []
  apply linksInv_blank
  apply linksInv_flush
  apply linksInv_add_span
  exact linksInv_start_line _ (linksInv_flush _ h)

/-- `push_admonition_header` preserves the link invariant. -/
theorem push_admonition_header_inv (s : MarkdownRenderer) (title : String)
    (sty : AdmonitionStyle) (h : LinksInv s) :
    LinksInv (s.push_admonition_header title sty) := by
  unfold MarkdownRenderer.push_admonition_header
  simp only []
  apply linksInv_flush
  apply linksInv_add_span
  exact linksInv_start_line _ (linksInv_flush _ h)

/-- `ensure_admonition_header` preserves the link invariant. -/
theorem ensure_admonition_header_inv (s : MarkdownRenderer)
    (h : LinksInv s) : LinksInv s.ensure_admonition_header := by
  unfold MarkdownRenderer.ensure_admonition_header
  split
  · exact h
  · simp only []
    split
    · exact linksInv_same _ _ (push_admonition_header_inv _ _ _ h) rfl rfl
        (le_refl _)
    · exact linksInv_same _ _ h rfl rfl (le_refl _)

/-- `render_code_block` preserves the link invariant. -/
theorem render_code_block_inv (s : MarkdownRenderer) (hl : Highlighter)
    (h : LinksInv s) : LinksInv (s.render_code_block hl) := by
  unfold MarkdownRenderer.render_code_block
  split
  · exact h
  · simp only []
    apply foldl_preserve LinksInv _ ?_ _ _
      (linksInv_same s ({ s with code_block_buf := "" }) h rfl rfl (le_refl _))
    intro s' a h'
    apply linksInv_flush
    split
    · apply foldl_preserve LinksInv _ ?_ _ _
        (linksInv_start_line _ (linksInv_flush _ h'))
      intro s'' r h''
      split
      · exact h''
      · apply linksInv_add_span
        exact h''
    · split
      · exact linksInv_start_line _ (linksInv_flush _ h')
      · apply linksInv_add_span
        exact linksInv_start_line _ (linksInv_flush _ h')

/-- `text` preserves the link invariant. -/
theorem text_inv (s : MarkdownRenderer) (t : String) (h : LinksInv s) :
    LinksInv (s.text t) := by
  have hbody : ∀ s' : MarkdownRenderer, LinksInv s' →
      LinksInv (s'.text_body t) := by
    intro s' h'
    unfold MarkdownRenderer.text_body
    split
    · exact linksInv_same _ _ h' rfl rfl (le_refl _)
    · exact push_text_go_inv _ _ _ _ h'
  unfold MarkdownRenderer.text
  split
  · split
    · split
      · exact linksInv_same _ _ (push_admonition_header_inv _ _ _ h) rfl rfl
          (le_refl _)
      · exact hbody _ (ensure_admonition_header_inv _ h)
    · exact hbody _ (ensure_admonition_header_inv _ h)
  · exact hbody _ h

/-- `push_style` and `pop_style` preserve the link invariant. -/
theorem style_ops_inv (s : MarkdownRenderer) (st : Style) (h : LinksInv s) :
    LinksInv (s.push_style st) ∧ LinksInv s.pop_style := by
  constructor
  · exact linksInv_same _ _ h rfl rfl (le_refl _)
  · unfold MarkdownRenderer.pop_style
    split
    · exact linksInv_same _ _ h rfl rfl (le_refl _)
    · exact h

/-- `start_tag` preserves the link invariant. -/
theorem start_tag_inv (s : MarkdownRenderer) (t : MdTag) (h : LinksInv s) :
    LinksInv (s.start_tag t) := by
  cases t <;> unfold MarkdownRenderer.start_tag <;> simp only []
  case emphasis => exact (style_ops_inv s _ h).1
  case strong => exact (style_ops_inv s _ h).1
  case strikethrough => exact (style_ops_inv s _ h).1
  case superscript => exact (style_ops_inv s _ h).1
  case subscript => exact (style_ops_inv s _ h).1
  case link u => exact (style_ops_inv
    ({ s with active_link_url := some u }) _
    (linksInv_same s _ h rfl rfl (le_refl _))).1
  case heading => exact (style_ops_inv s _ h).1
  case blockQuote k =>
    exact linksInv_same _ _ (linksInv_flush _ h) rfl rfl (le_refl _)
  case codeBlock lang =>
    exact linksInv_same _ _
      (linksInv_flush _ (ensure_admonition_header_inv _ h)) rfl rfl (le_refl _)
  case item =>
    exact linksInv_same _ _ (linksInv_flush _ h) rfl rfl (le_refl _)
  case paragraph => exact h
  case other => exact h

/-- `end_tag` preserves the link invariant. -/
theorem end_tag_inv (s : MarkdownRenderer) (hl : Highlighter) (t : MdTagEnd)
    (h : LinksInv s) : LinksInv (s.end_tag hl t) := by
  cases t <;> unfold MarkdownRenderer.end_tag <;> simp only []
  case emphasis => exact (style_ops_inv s default h).2
  case strong => exact (style_ops_inv s default h).2
  case strikethrough => exact (style_ops_inv s default h).2
  case superscript => exact (style_ops_inv s default h).2
  case subscript => exact (style_ops_inv s default h).2
  case link => exact (style_ops_inv
    ({ s with active_link_url := none }) default
    (linksInv_same s _ h rfl rfl (le_refl _))).2
  case heading => exact linksInv_flush _ (style_ops_inv s default h).2
  case blockQuote =>
    apply linksInv_blank
    exact linksInv_same _ _ (linksInv_flush _ h) rfl rfl (le_refl _)
  case codeBlock =>
    apply linksInv_blank
    exact linksInv_same _ _ (linksInv_flush _ (render_code_block_inv _ hl h))
      rfl rfl (le_refl _)
  case item =>
    exact linksInv_same _ _ (linksInv_flush _ h) rfl rfl (le_refl _)
  case paragraph => exact linksInv_blank _ (linksInv_flush _ h)
  case other => exact h

/-- Every renderer step preserves the link invariant. -/
theorem step_inv (hl : Highlighter) (s : MarkdownRenderer) (e : MdEvent)
    (h : LinksInv s) : LinksInv (s.step hl e) := by
  cases e <;> unfold MarkdownRenderer.step
  case start t => exact start_tag_inv s t h
  case stop t => exact end_tag_inv s hl t h
  case text t => exact text_inv s t h
  case code t =>
    unfold MarkdownRenderer.inline_code
    exact push_text_go_inv _ _ _ _ (ensure_admonition_header_inv _ h)
  case math t =>
    unfold MarkdownRenderer.inline_math
    exact push_text_go_inv _ _ _ _ (ensure_admonition_header_inv _ h)
  case softBreak =>
    unfold MarkdownRenderer.soft_break
    simp only []
    split
    · exact linksInv_same _ _ (ensure_admonition_header_inv _ h) rfl rfl
        (le_refl _)
    · exact linksInv_pending _ (ensure_admonition_header_inv _ h) true
  case hardBreak =>
    unfold MarkdownRenderer.hard_break
    simp only []
    split
    · exact linksInv_same _ _ (ensure_admonition_header_inv _ h) rfl rfl
        (le_refl _)
    · exact linksInv_flush _ (ensure_admonition_header_inv _ h)
  case html t => exact text_inv s t h
  case rule => exact rule_inv s h
  case taskListMarker c =>
    unfold MarkdownRenderer.task_list_marker
    exact push_text_go_inv _ _ _ _ (ensure_admonition_header_inv _ h)

/-- The freshly constructed renderer satisfies the link invariant. -/
theorem new_linksInv (w ind : Nat) : LinksInv (MarkdownRenderer.new w ind) := by
  refine ⟨List.chain'_nil, ?_, ?_⟩
  · intro l hl
    cases hl
  · intro l hl
    cases hl

/-- `finish` returns the tracked links unchanged. -/
theorem finish_links (s : MarkdownRenderer) : s.finish.links = s.links := by
  unfold MarkdownRenderer.finish MarkdownRenderer.flush_line
  split <;> rfl

/-- C2: in every rendered document, no two distinct link segments share the
same url on the same line while being column-adjacent
(`first.col + first.width = second.col`): adjacent same-url fragments are
merged at construction time. -/
theorem no_adjacent_same_url_segments (hl : Highlighter)
    (evs : List MdEvent) (w ind : Nat) (i j : Nat)
    (hi : i < (renderMarkdownEvents hl evs w ind).links.length)
    (hj : j < (renderMarkdownEvents hl evs w ind).links.length)
    (hij : i ≠ j) :
    ¬(((renderMarkdownEvents hl evs w ind).links.get ⟨i, hi⟩).url =
        ((renderMarkdownEvents hl evs w ind).links.get ⟨j, hj⟩).url ∧
      ((renderMarkdownEvents hl evs w ind).links.get ⟨i, hi⟩).line =
        ((renderMarkdownEvents hl evs w ind).links.get ⟨j, hj⟩).line ∧
      ((renderMarkdownEvents hl evs w ind).links.get ⟨i, hi⟩).col +
          ((renderMarkdownEvents hl evs w ind).links.get ⟨i, hi⟩).width =
        ((renderMarkdownEvents hl evs w ind).links.get ⟨j, hj⟩).col) := by
  have hinv : LinksInv (renderEvents hl (MarkdownRenderer.new w ind) evs) :=
    foldl_preserve LinksInv _ (step_inv hl) evs _ (new_linksInv w ind)
  have hL : (renderMarkdownEvents hl evs w ind).links =
      (renderEvents hl (MarkdownRenderer.new w ind) evs).links := by
    unfold renderMarkdownEvents
    exact finish_links _
  have hpw : List.Pairwise segStep (renderMarkdownEvents hl evs w ind).links := by
    rw [hL]
    exact chain'_segStep_pairwise _ hinv.widths hinv.chain
  have hwd : ∀ l ∈ (renderMarkdownEvents hl evs w ind).links, 1 ≤ l.width := by
    rw [hL]
    exact hinv.widths
  rw [List.pairwise_iff_get] at hpw
  intro ⟨hu, hline, hadj⟩
  rcases Nat.lt_or_ge i j with hlt | hge
  · have hstep := hpw ⟨i, hi⟩ ⟨j, hj⟩ hlt
    rcases hstep with hs | ⟨he, hle, hurl⟩
    · omega
    · have := hurl hu
      omega
  · have hlt : j < i := by omega
    have hstep := hpw ⟨j, hj⟩ ⟨i, hi⟩ hlt
    have hwi := hwd _ (List.get_mem _ i hi)
    have hwj := hwd _ (List.get_mem _ j hj)
    rcases hstep with hs | ⟨he, hle, _⟩
    · omega
    · omega

/-- Witness for C2 on the wrapped-link document at width 12. -/
theorem no_adjacent_same_url_segments_witness :
    ¬(((renderMarkdownEvents hlNone evWrapLink 12 2).links.get
          ⟨0, by decide⟩).url =
        ((renderMarkdownEvents hlNone evWrapLink 12 2).links.get
          ⟨1, by decide⟩).url ∧
      ((renderMarkdownEvents hlNone evWrapLink 12 2).links.get
          ⟨0, by decide⟩).line =
        ((renderMarkdownEvents hlNone evWrapLink 12 2).links.get
          ⟨1, by decide⟩).line ∧
      ((renderMarkdownEvents hlNone evWrapLink 12 2).links.get
            ⟨0, by decide⟩).col +
          ((renderMarkdownEvents hlNone evWrapLink 12 2).links.get
            ⟨0, by decide⟩).width =
        ((renderMarkdownEvents hlNone evWrapLink 12 2).links.get
          ⟨1, by decide⟩).col) :=
  no_adjacent_same_url_segments hlNone evWrapLink 12 2 0 1 (by decide)
    (by decide) (by decide)

/-- Every character occupies at most two cells. -/
theorem charWidth_le_two (c : Char) : charWidth c ≤ 2 := by
  unfold charWidth
  simp only []
  split_ifs <;> omega

/-- Display width distributes over character-list append. -/
theorem displayWidthL_append (a b : List Char) :
    displayWidthL (a ++ b) = displayWidthL a + displayWidthL b := by
  unfold displayWidthL
  rw [List.map_append, List.sum_append]

/-- Display width distributes over string append. -/
theorem displayWidth_append (a b : String) :
    displayWidth (a ++ b) = displayWidth a + displayWidth b := by
  unfold displayWidth
  rw [String.data_append, displayWidthL_append]

/-- A run of `n` spaces is `n` cells wide. -/
theorem displayWidth_repeat_space (n : Nat) :
    displayWidth (repeatString " " n) = n := by
  induction n with
  | zero => rfl
  | succ n ih =>
    unfold repeatString
    rw [displayWidth_append, ih]
    have h1 : displayWidth " " = 1 := rfl
    omega

/-- Repeating the empty string gives the empty string. -/
theorem repeatString_empty (n : Nat) : repeatString "" n = "" := by
  induction n with
  | zero => rfl
  | succ n ih =>
    unfold repeatString
    rw [ih]
    rfl

/-- Line width over span append. -/
theorem lineWidth_append (l : RLine) (sp : RSpan) :
    lineWidth (l ++ [sp]) = lineWidth l + displayWidth sp.content := by
  unfold lineWidth
  rw [List.map_append, List.sum_append]
  rfl

/-- Under the invariant, the line prefix is at most `indent + 3` cells. -/
theorem pref_width_le (s : MarkdownRenderer)
    (hPref : s.list_pref = none ∨ s.list_pref = some " ") :
    s.pref_width ≤ s.indent + 3 := by
  have h1 : displayWidth " " = 1 := rfl
  unfold MarkdownRenderer.pref_width
  rcases hPref with h | h <;> simp only [h, h1] <;> split_ifs <;> omega

/-- `WidthInv` transfers along updates preserving the layout fields. -/
theorem winv_same (s s' : MarkdownRenderer) (h : WidthInv s)
    (h1 : s'.lines = s.lines) (h2 : s'.current_line = s.current_line)
    (h3 : s'.current_width = s.current_width)
    (h4 : s'.max_width = s.max_width) (h5 : s'.indent = s.indent)
    (h6 : s'.list_pref = s.list_pref)
    (h7 : s'.block_quote_style = s.block_quote_style)
    (h8 : s'.in_code_block = s.in_code_block)
    (h9 : s'.code_block_buf = s.code_block_buf)
    (h10 : s'.in_block_quote = s.in_block_quote) : WidthInv s' := by
  have hpw : s'.pref_width = s.pref_width := by
    unfold MarkdownRenderer.pref_width
    rw [h5, h6, h10]
  refine ⟨h4 ▸ h.hM, ?_, h6 ▸ h.hPref, h7 ▸ h.hAdm, h8 ▸ h.hCode,
    h9 ▸ h.hBuf, ?_, ?_, ?_, ?_, ?_, ?_⟩
  · rw [h4, h5]; exact h.hInd
  · rw [h1, h4]; exact h.hLines
  · rw [h2, h3]; exact h.hCurLe
  · rw [h2, h3, h4]; exact h.hCur
  · rw [h2, h4]; exact h.hFrag
  · rw [h2, h3]; exact h.hEmpty
  · rw [h2, h3, hpw]; exact h.hGe

/-- `flush_line` preserves the width invariant and clears the cursor. -/
theorem winv_flush (s : MarkdownRenderer) (h : WidthInv s) :
    WidthInv s.flush_line ∧ s.flush_line.current_width = 0 ∧
      s.flush_line.current_line = [] ∧
      s.flush_line.max_width = s.max_width ∧
      s.flush_line.pref_width = s.pref_width := by
  unfold MarkdownRenderer.flush_line
  split
  · rename_i he
    rw [List.isEmpty_iff] at he
    refine ⟨winv_same s _ h rfl rfl rfl rfl rfl rfl rfl rfl rfl rfl,
      h.hEmpty he, he, rfl, rfl⟩
  · rename_i he
    rw [List.isEmpty_iff] at he
    refine ⟨⟨h.hM, h.hInd, h.hPref, h.hAdm, h.hCode, h.hBuf, ?_, ?_, ?_, ?_,
      ?_, ?_⟩, rfl, rfl, rfl, rfl⟩
    · intro l hl
      rcases List.mem_append.mp hl with hl | hl
      · exact h.hLines l hl
      · simp only [List.mem_singleton] at hl
        rw [hl]
        constructor
        · unfold lineOKW
          rcases h.hCur with hc | hc
          · exact Or.inl (le_trans h.hCurLe hc)
          · exact Or.inr hc
        · exact h.hFrag
    · simp [lineWidth, displayWidthL]
    · simp
    · intro sp hsp
      cases hsp
    · intro _
      rfl
    · intro hne
      exact absurd rfl hne

/-- `push_blank_line` preserves the width invariant. -/
theorem winv_blank (s : MarkdownRenderer) (h : WidthInv s) :
    WidthInv s.push_blank_line := by
  unfold MarkdownRenderer.push_blank_line
  split
  · exact h
  · refine ⟨h.hM, h.hInd, h.hPref, h.hAdm, h.hCode, h.hBuf, ?_, h.hCurLe,
      h.hCur, h.hFrag, h.hEmpty, h.hGe⟩
    intro l hl
    rcases List.mem_append.mp hl with hl | hl
    · exact h.hLines l hl
    · simp only [List.mem_singleton] at hl
      rw [hl]
      constructor
      · exact Or.inl (by simp [lineWidth, displayWidthL])
      · intro sp hsp
        cases hsp

/-- `push_link_segment` does not touch any layout field. -/
theorem winv_push_seg (s : MarkdownRenderer) (h : WidthInv s)
    (label : String) (col width : Nat) :
    WidthInv (s.push_link_segment label col width) := by
  unfold MarkdownRenderer.push_link_segment
  split
  · exact h
  · split
    · exact h
    · split
      · simp only [MarkdownRenderer.current_line_index]
        split
        · exact winv_same s _ h rfl rfl rfl rfl rfl rfl rfl rfl rfl rfl
        · exact winv_same s _ h rfl rfl rfl rfl rfl rfl rfl rfl rfl rfl
      · exact winv_same s _ h rfl rfl rfl rfl rfl rfl rfl rfl rfl rfl

/-- `start_line` only touches the current line and cursor. -/
theorem start_line_layout_fields (s : MarkdownRenderer) :
    s.start_line.lines = s.lines ∧ s.start_line.max_width = s.max_width ∧
      s.start_line.indent = s.indent ∧
      s.start_line.in_block_quote = s.in_block_quote ∧
      s.start_line.block_quote_style = s.block_quote_style ∧
      s.start_line.list_pref = s.list_pref ∧
      s.start_line.in_code_block = s.in_code_block ∧
      s.start_line.code_block_buf = s.code_block_buf := by
  unfold MarkdownRenderer.start_line
  by_cases he : !s.current_line.isEmpty
  · rw [if_pos he]
    exact ⟨rfl, rfl, rfl, rfl, rfl, rfl, rfl, rfl⟩
  · rw [if_neg he]
    by_cases h1 : 0 < s.indent <;> by_cases h2 : s.in_block_quote = true <;>
      cases hlp : s.list_pref <;> simp [h1, h2, hlp]

/-- `start_line` does not change the line prefix width. -/
theorem start_line_pref (s : MarkdownRenderer) :
    s.start_line.pref_width = s.pref_width := by
  have h := start_line_layout_fields s
  unfold MarkdownRenderer.pref_width
  rw [h.2.2.1, h.2.2.2.1, h.2.2.2.2.2.1]

/-- On an empty line, `start_line` advances the cursor by the prefix. -/
theorem start_line_cw_empty (s : MarkdownRenderer)
    (hline : s.current_line = []) :
    s.start_line.current_width = s.current_width + s.pref_width := by
  unfold MarkdownRenderer.start_line MarkdownRenderer.pref_width
  rw [hline]
  by_cases h1 : 0 < s.indent <;> by_cases h2 : s.in_block_quote = true <;>
    cases hlp : s.list_pref <;> simp [h1, h2, hlp] <;> omega

/-- A space is one cell wide. -/
theorem displayWidth_space : displayWidth " " = 1 := rfl

/-- The prefix spans of a fresh line are at most `pref_width` cells (the
quote border span counts 2 cells but holds one character). -/
theorem start_line_lineWidth_empty (s : MarkdownRenderer)
    (hline : s.current_line = []) :
    lineWidth s.start_line.current_line ≤ s.pref_width := by
  unfold MarkdownRenderer.start_line MarkdownRenderer.pref_width
  rw [hline]
  by_cases h1 : 0 < s.indent <;> by_cases h2 : s.in_block_quote = true <;>
    cases hlp : s.list_pref <;>
    simp [h1, h2, hlp, hline, lineWidth, RSpan.raw, RSpan.styled,
      displayWidth_repeat_space, displayWidth_space] <;>
    omega

/-- Prefix spans are never long-word fragments. -/
theorem start_line_fragsOK_empty (s : MarkdownRenderer) (W : Nat)
    (hline : s.current_line = []) :
    fragsOKW W s.start_line.current_line := by
  unfold MarkdownRenderer.start_line
  rw [hline]
  by_cases h1 : 0 < s.indent <;> by_cases h2 : s.in_block_quote = true <;>
    cases hlp : s.list_pref <;>
    simp [h1, h2, hlp, hline, fragsOKW, RSpan.raw, RSpan.styled]

/-- If `start_line` leaves an empty line empty, the prefix is empty. -/
theorem start_line_stays_empty (s : MarkdownRenderer)
    (hline : s.current_line = [])
    (h2 : s.start_line.current_line = []) : s.pref_width = 0 := by
  revert h2
  unfold MarkdownRenderer.start_line MarkdownRenderer.pref_width
  rw [hline]
  by_cases h1 : 0 < s.indent <;> by_cases h2 : s.in_block_quote = true <;>
    cases hlp : s.list_pref <;> simp [h1, h2, hlp] <;> omega

/-- `start_line` is the identity on a non-empty line. -/
theorem start_line_id_nonempty (s : MarkdownRenderer)
    (h : s.current_line ≠ []) : s.start_line = s := by
  unfold MarkdownRenderer.start_line
  rw [if_pos]
  simpa [List.isEmpty_iff] using h

/-- `start_line` from an empty line keeps the width invariant and sets the
cursor to the prefix width. -/
theorem winv_start_line_empty (s : MarkdownRenderer) (h : WidthInv s)
    (hline : s.current_line = []) :
    WidthInv s.start_line ∧ s.start_line.current_width = s.pref_width := by
  obtain ⟨f1, f2, f3, f4, f5, f6, f7, f8⟩ := start_line_layout_fields s
  have hcw : s.start_line.current_width = s.pref_width := by
    rw [start_line_cw_empty s hline, h.hEmpty hline, Nat.zero_add]
  refine ⟨⟨?_, ?_, ?_, ?_, ?_, ?_, ?_, ?_, ?_, ?_, ?_, ?_⟩, hcw⟩
  · rw [f2]; exact h.hM
  · rw [f2, f3]; exact h.hInd
  · rw [f6]; exact h.hPref
  · rw [f5]; exact h.hAdm
  · rw [f7]; exact h.hCode
  · rw [f8]; exact h.hBuf
  · rw [f1, f2]; exact h.hLines
  · rw [hcw]; exact start_line_lineWidth_empty s hline
  · rw [hcw, f2]
    exact Or.inl (le_trans (pref_width_le s h.hPref) h.hInd)
  · rw [f2]; exact start_line_fragsOK_empty s _ hline
  · intro he
    rw [hcw, start_line_stays_empty s hline he]
  · intro _
    rw [hcw, start_line_pref]

/-- `start_line` keeps the width invariant and lands the cursor at or
beyond the prefix. -/
theorem winv_start_line_all (s : MarkdownRenderer) (h : WidthInv s) :
    WidthInv s.start_line ∧ s.pref_width ≤ s.start_line.current_width ∧
      s.start_line.max_width = s.max_width := by
  by_cases hline : s.current_line = []
  · obtain ⟨hw, hcw⟩ := winv_start_line_empty s h hline
    exact ⟨hw, le_of_eq hcw.symm, (start_line_layout_fields s).2.1⟩
  · rw [start_line_id_nonempty s hline]
    exact ⟨h, h.hGe hline, rfl⟩

/-- `push_link_segment` only changes the link list. -/
theorem push_seg_layout (s : MarkdownRenderer) (l : String) (c w : Nat) :
    (s.push_link_segment l c w).max_width = s.max_width ∧
      (s.push_link_segment l c w).current_line = s.current_line ∧
      (s.push_link_segment l c w).current_width = s.current_width ∧
      (s.push_link_segment l c w).lines = s.lines := by
  unfold MarkdownRenderer.push_link_segment
  split
  · exact ⟨rfl, rfl, rfl, rfl⟩
  · split
    · exact ⟨rfl, rfl, rfl, rfl⟩
    · split
      · simp only [MarkdownRenderer.current_line_index]
        split
        · exact ⟨rfl, rfl, rfl, rfl⟩
        · exact ⟨rfl, rfl, rfl, rfl⟩
      · exact ⟨rfl, rfl, rfl, rfl⟩

/-- Appending one long-word fragment span that fits the budget on its own
preserves the width invariant. -/
theorem winv_add_frag (s : MarkdownRenderer) (h : WidthInv s)
    (hge : s.pref_width ≤ s.current_width) (content : String)
    (style : Style) (hle : displayWidth content ≤ s.max_width) :
    WidthInv { s with
      current_line := s.current_line ++
        [({ content := content, style := style, fromBreak := true } : RSpan)]
      current_width := s.current_width + displayWidth content } := by
  refine ⟨h.hM, h.hInd, h.hPref, h.hAdm, h.hCode, h.hBuf, h.hLines, ?_, ?_,
    ?_, ?_, ?_⟩
  · simp only [lineWidth_append]
    have := h.hCurLe
    omega
  · refine Or.inr ⟨_, List.mem_append_right _ (List.mem_singleton.mpr rfl),
      rfl⟩
  · intro sp hsp hbr
    rcases List.mem_append.mp hsp with hsp | hsp
    · exact h.hFrag sp hsp hbr
    · simp only [List.mem_singleton] at hsp
      rw [hsp]
      exact hle
  · intro he
    simp at he
  · intro _
    show s.pref_width ≤ s.current_width + displayWidth content
    omega

/-- A break chunk is bounded by the budget or a single character. -/
theorem chunk_le (available curW : Nat) (cur : List Char)
    (hw : curW = displayWidthL cur)
    (hinv : curW ≤ available ∨ ∃ c, cur = [c]) :
    curW ≤ max available 2 := by
  rcases hinv with h | ⟨c, hc⟩
  · exact le_trans h (le_max_left _ _)
  · have h2 := charWidth_le_two c
    have h3 : curW = charWidth c := by
      rw [hw, hc]
      simp [displayWidthL]
    omega

/-- Chunks of the break-anywhere loop never exceed `max available 2`. -/
theorem breakLongWordGo_width (available : Nat) :
    ∀ (cs cur : List Char) (curW : Nat),
      curW = displayWidthL cur → (curW ≤ available ∨ ∃ c, cur = [c]) →
      ∀ p ∈ breakLongWordGo available cur curW cs,
        displayWidthL p ≤ max available 2 := by
  intro cs
  induction cs with
  | nil =>
    intro cur curW hw hinv p hp
    unfold breakLongWordGo at hp
    split at hp
    · cases hp
    · simp only [List.mem_singleton] at hp
      rw [hp, ← hw]
      exact chunk_le available curW cur hw hinv
  | cons c cs ih =>
    intro cur curW hw hinv p hp
    unfold breakLongWordGo at hp
    split at hp
    · exact ih [c] (charWidth c) (by simp [displayWidthL]) (Or.inr ⟨c, rfl⟩)
        p hp
    · split at hp
      · refine ih (cur ++ [c]) (curW + charWidth c) ?_ (Or.inl ‹_›) p hp
        rw [displayWidthL_append, hw]
        simp [displayWidthL]
      · rcases List.mem_cons.mp hp with hp | hp
        · rw [hp, ← hw]
          exact chunk_le available curW cur hw hinv
        · exact ih [c] (charWidth c) (by simp [displayWidthL])
            (Or.inr ⟨c, rfl⟩) p hp

/-- Every chunk of the long-word break fits the clamped document width. -/
theorem breakLongWord_width (s : MarkdownRenderer) (h : WidthInv s)
    (word : String) :
    ∀ p ∈ breakLongWord (max (s.max_width - s.pref_width) 1) word,
      displayWidthL p ≤ s.max_width := by
  intro p hp
  have hb := breakLongWordGo_width (max (s.max_width - s.pref_width) 1)
    word.data [] 0 rfl (Or.inl (by omega)) p hp
  have hM := h.hM
  have h1 : max (s.max_width - s.pref_width) 1 ≤ s.max_width := by
    have h2 : s.max_width - s.pref_width ≤ s.max_width := Nat.sub_le _ _
    omega
  omega

/-- The long-word chunk loop keeps the width invariant when every chunk
fits the width budget. -/
theorem winv_push_parts (style : Style) :
    ∀ (ps : List (List Char)) (first : Bool) (s : MarkdownRenderer),
      WidthInv s → (∀ p ∈ ps, displayWidthL p ≤ s.max_width) →
      WidthInv (s.push_parts style first ps) ∧
        (s.push_parts style first ps).max_width = s.max_width := by
  intro ps
  induction ps with
  | nil =>
    intro first s h _
    exact ⟨h, rfl⟩
  | cons p ps ih =>
    intro first s h hbound
    unfold MarkdownRenderer.push_parts
    simp only []
    set S1 := if first = true then s else s.flush_line with hS1
    have h1 : WidthInv S1 ∧ S1.max_width = s.max_width := by
      rw [hS1]
      split
      · exact ⟨h, rfl⟩
      · exact ⟨(winv_flush s h).1, (winv_flush s h).2.2.2.1⟩
    set S2 := S1.start_line with hS2
    have h2 := winv_start_line_all S1 h1.1
    have hmw2 : S2.max_width = s.max_width := by
      rw [hS2, (start_line_layout_fields S1).2.1, h1.2]
    have hge2 : S2.pref_width ≤ S2.current_width := by
      rw [hS2, start_line_pref]
      exact h2.2.1
    have hw2 : WidthInv S2 := by
      rw [hS2]
      exact h2.1
    have hple : displayWidth (String.mk p) ≤ S2.max_width := by
      rw [hmw2]
      exact hbound p (List.mem_cons_self p ps)
    have h3 := winv_add_frag S2 hw2 hge2 (String.mk p) style hple
    have h4 := winv_push_seg _ h3 (String.mk p) S2.current_width
      (displayWidthL p)
    have hmw4 : (({ S2 with
        current_line := S2.current_line ++
          [({ content := String.mk p, style := style, fromBreak := true } :
            RSpan)]
        current_width := S2.current_width + displayWidth (String.mk p) } :
        MarkdownRenderer).push_link_segment (String.mk p) S2.current_width
          (displayWidthL p)).max_width = s.max_width := by
      rw [(push_seg_layout _ _ _ _).1]
      exact hmw2
    refine ⟨(ih false _ h4 ?_).1, ?_⟩
    · rw [hmw4]
      exact fun q hq => hbound q (List.mem_cons_of_mem p hq)
    · exact ((ih false _ h4 (by
        rw [hmw4]
        exact fun q hq => hbound q (List.mem_cons_of_mem p hq))).2).trans hmw4

/-- `push_long_word` keeps the width invariant. -/
theorem winv_push_long_word (s : MarkdownRenderer) (word : String)
    (style : Style) (h : WidthInv s) :
    WidthInv (s.push_long_word word style) := by
  unfold MarkdownRenderer.push_long_word
  simp only []
  exact (winv_push_parts style _ true s h (breakLongWord_width s h word)).1

/-- `start_line` keeps the pending-space flag. -/
theorem start_line_pending (s : MarkdownRenderer) :
    s.start_line.pending_space = s.pending_space := by
  unfold MarkdownRenderer.start_line
  by_cases he : !s.current_line.isEmpty
  · rw [if_pos he]
  · rw [if_neg he]
    by_cases h1 : 0 < s.indent <;> by_cases h2 : s.in_block_quote = true <;>
      cases hlp : s.list_pref <;> simp [h1, h2, hlp]

/-- `push_link_segment` keeps the prefix width and pending flag. -/
theorem push_seg_pref (s : MarkdownRenderer) (l : String) (c w : Nat) :
    (s.push_link_segment l c w).pref_width = s.pref_width ∧
      (s.push_link_segment l c w).pending_space = s.pending_space := by
  unfold MarkdownRenderer.push_link_segment
  split
  · exact ⟨rfl, rfl⟩
  · split
    · exact ⟨rfl, rfl⟩
    · split
      · simp only [MarkdownRenderer.current_line_index]
        split
        · exact ⟨rfl, rfl⟩
        · exact ⟨rfl, rfl⟩
      · exact ⟨rfl, rfl⟩

/-- Materialising the pending space keeps the width invariant when one
cell remains. -/
theorem winv_add_space (s : MarkdownRenderer) (h : WidthInv s)
    (hge : s.pref_width ≤ s.current_width)
    (hfit : s.current_width + 1 ≤ s.max_width) :
    WidthInv { s with current_line := s.current_line ++ [RSpan.raw " "]
                      current_width := s.current_width + 1 } := by
  refine ⟨h.hM, h.hInd, h.hPref, h.hAdm, h.hCode, h.hBuf, h.hLines, ?_, ?_,
    ?_, ?_, ?_⟩
  · simp only [lineWidth_append, RSpan.raw, displayWidth_space]
    have := h.hCurLe
    omega
  · exact Or.inl hfit
  · intro sp hsp hbr
    rcases List.mem_append.mp hsp with hsp | hsp
    · exact h.hFrag sp hsp hbr
    · simp only [List.mem_singleton] at hsp
      rw [hsp] at hbr
      cases hbr
  · intro he
    simp at he
  · intro _
    show s.pref_width ≤ s.current_width + 1
    omega

/-- Appending a word span that fits the remaining budget keeps the width
invariant. -/
theorem winv_add_word (s : MarkdownRenderer) (h : WidthInv s)
    (content : String) (style : Style)
    (hge : s.pref_width ≤ s.current_width)
    (hfits : s.current_width + displayWidth content ≤ s.max_width) :
    WidthInv { s with
      current_line := s.current_line ++
        [({ content := content, style := style, fromBreak := false } : RSpan)]
      current_width := s.current_width + displayWidth content
      pending_space := false } := by
  refine ⟨h.hM, h.hInd, h.hPref, h.hAdm, h.hCode, h.hBuf, h.hLines, ?_, ?_,
    ?_, ?_, ?_⟩
  · simp only [lineWidth_append]
    have := h.hCurLe
    omega
  · exact Or.inl hfits
  · intro sp hsp hbr
    rcases List.mem_append.mp hsp with hsp | hsp
    · exact h.hFrag sp hsp hbr
    · simp only [List.mem_singleton] at hsp
      rw [hsp] at hbr
      cases hbr
  · intro he
    simp at he
  · intro _
    show s.pref_width ≤ s.current_width + displayWidth content
    omega

theorem winv_push_word (s : MarkdownRenderer) (word : String) (style : Style)
    (h : WidthInv s) : WidthInv (s.push_word word style) := by
  unfold MarkdownRenderer.push_word
  simp only []
  split
  · exact winv_same _ _ (winv_push_long_word s word style h) rfl rfl rfl rfl
      rfl rfl rfl rfl rfl rfl
  · rename_i hlong
    have hpwle : s.pref_width ≤ s.max_width :=
      le_trans (pref_width_le s h.hPref) (le_trans (by omega) h.hInd)
    have hfits0 : s.pref_width + displayWidth word ≤ s.max_width := by omega
    set S1 := if s.current_line.isEmpty = true then s.start_line else s
      with hS1
    have hS1f : WidthInv S1 ∧ s.pref_width ≤ S1.current_width ∧
        S1.max_width = s.max_width ∧ S1.pref_width = s.pref_width ∧
        S1.pending_space = s.pending_space ∧
        (S1.current_width = s.pref_width ∨
          (S1.current_width = s.current_width ∧ s.current_line ≠ [])) := by
      rw [hS1]
      split
      · rename_i he
        have hline : s.current_line = [] := List.isEmpty_iff.mp he
        obtain ⟨hw, hcw⟩ := winv_start_line_empty s h hline
        exact ⟨hw, le_of_eq hcw.symm, (start_line_layout_fields s).2.1,
          start_line_pref s, start_line_pending s, Or.inl hcw⟩
      · rename_i he
        have hline : s.current_line ≠ [] := by
          simpa [List.isEmpty_iff] using he
        exact ⟨h, h.hGe hline, rfl, rfl, rfl, Or.inr ⟨rfl, hline⟩⟩
    set S2 := if s.max_width < S1.current_width +
        (if s.pending_space = true ∧ s.pref_width < s.current_width then 1
          else 0) + displayWidth word ∧ s.pref_width < S1.current_width then
        S1.flush_line.start_line else S1 with hS2
    have hS2f : WidthInv S2 ∧ s.pref_width ≤ S2.current_width ∧
        S2.max_width = s.max_width ∧ S2.pref_width = s.pref_width ∧
        ((S2.pending_space = false ∧
            S2.current_width + displayWidth word ≤ s.max_width) ∨
          S2.current_width = s.pref_width ∨
          (S2.current_width = s.current_width ∧
            S2.pending_space = s.pending_space ∧
            (s.pending_space = true ∧ s.pref_width < s.current_width →
              s.current_width + 1 + displayWidth word ≤ s.max_width) ∧
            (¬(s.pending_space = true ∧ s.pref_width < s.current_width) →
              s.current_width + displayWidth word ≤ s.max_width))) := by
      rw [hS2]
      by_cases hc : s.max_width < S1.current_width +
          (if s.pending_space = true ∧ s.pref_width < s.current_width then 1
            else 0) + displayWidth word ∧ s.pref_width < S1.current_width
      · rw [if_pos hc]
        obtain ⟨hwf, hcwf, hlf, hmwf, hpwf⟩ := winv_flush S1 hS1f.1
        obtain ⟨hw2, hcw2⟩ := winv_start_line_empty S1.flush_line hwf hlf
        have hcw2' : S1.flush_line.start_line.current_width = s.pref_width := by
          rw [hcw2, hpwf, hS1f.2.2.2.1]
        refine ⟨hw2, le_of_eq hcw2'.symm, ?_, ?_, Or.inr (Or.inl hcw2')⟩
        · rw [(start_line_layout_fields S1.flush_line).2.1, hmwf, hS1f.2.2.1]
        · rw [start_line_pref, hpwf, hS1f.2.2.2.1]
      · rw [if_neg hc]
        rcases hS1f.2.2.2.2.2 with hcw1 | ⟨hcw1, hline⟩
        · exact ⟨hS1f.1, hS1f.2.1, hS1f.2.2.1, hS1f.2.2.2.1,
            Or.inr (Or.inl hcw1)⟩
        · refine ⟨hS1f.1, hS1f.2.1, hS1f.2.2.1, hS1f.2.2.2.1,
            Or.inr (Or.inr ⟨hcw1, hS1f.2.2.2.2.1, ?_, ?_⟩)⟩
          · intro hsw
            rw [hcw1] at hc
            rw [if_pos hsw] at hc
            have hge := h.hGe hline
            omega
          · intro hnsw
            rw [hcw1] at hc
            rw [if_neg hnsw] at hc
            have hge := h.hGe hline
            by_cases hlt2 : s.pref_width < s.current_width
            · omega
            · omega
    apply winv_push_seg
    apply winv_add_word
    · split
      · rename_i hc3
        have hfit1 : S2.current_width + 1 ≤ s.max_width := by
          rcases hS2f.2.2.2.2 with ⟨hp, _⟩ | hcw | ⟨hcw, hpd, himp, _⟩
          · rw [hc3.1] at hp
            cases hp
          · rw [hcw] at hc3
            omega
          · have := himp (by
              refine ⟨?_, ?_⟩
              · rw [← hpd]; exact hc3.1
              · rw [← hcw]; exact hc3.2)
            rw [hcw]
            omega
        have hfit1' : S2.current_width + 1 ≤ S2.max_width := by
          rw [hS2f.2.2.1]
          exact hfit1
        have hgep : S2.pref_width ≤ S2.current_width := by
          rw [hS2f.2.2.2.1]
          exact hS2f.2.1
        split
        · apply winv_push_seg
          exact winv_add_space S2 hS2f.1 hgep hfit1'
        · exact winv_add_space S2 hS2f.1 hgep hfit1'
      · exact hS2f.1
    · split
      · rename_i hc3
        split
        · rw [(push_seg_pref _ " " S2.current_width 1).1,
            (push_seg_layout _ " " S2.current_width 1).2.2.1]
          show S2.pref_width ≤ S2.current_width + 1
          rw [hS2f.2.2.2.1]
          have := hS2f.2.1
          omega
        · show S2.pref_width ≤ S2.current_width + 1
          rw [hS2f.2.2.2.1]
          have := hS2f.2.1
          omega
      · rw [hS2f.2.2.2.1]
        exact hS2f.2.1
    · split
      · rename_i hc3
        have hplus : S2.current_width + 1 + displayWidth word ≤ s.max_width := by
          rcases hS2f.2.2.2.2 with ⟨hp, _⟩ | hcw | ⟨hcw, hpd, himp, _⟩
          · rw [hc3.1] at hp
            cases hp
          · rw [hcw] at hc3
            omega
          · have := himp (by
              refine ⟨?_, ?_⟩
              · rw [← hpd]; exact hc3.1
              · rw [← hcw]; exact hc3.2)
            rw [hcw]
            omega
        split
        · rw [(push_seg_layout _ " " S2.current_width 1).1,
            (push_seg_layout _ " " S2.current_width 1).2.2.1]
          show S2.current_width + 1 + displayWidth word ≤ S2.max_width
          rw [hS2f.2.2.1]
          exact hplus
        · show S2.current_width + 1 + displayWidth word ≤ S2.max_width
          rw [hS2f.2.2.1]
          exact hplus
      · rename_i hc3
        show S2.current_width + displayWidth word ≤ S2.max_width
        rw [hS2f.2.2.1]
        rcases hS2f.2.2.2.2 with ⟨_, hfit⟩ | hcw | ⟨hcw, hpd, _, himp⟩
        · exact hfit
        · rw [hcw]
          exact hfits0
        · rw [hcw]
          exact himp (by
            rw [← hpd, ← hcw]
            exact hc3)

theorem mw_flush (s : MarkdownRenderer) :
    s.flush_line.max_width = s.max_width := by
  unfold MarkdownRenderer.flush_line
  split <;> rfl

theorem mw_blank (s : MarkdownRenderer) :
    s.push_blank_line.max_width = s.max_width := by
  unfold MarkdownRenderer.push_blank_line
  split <;> rfl

theorem mw_pop (s : MarkdownRenderer) :
    s.pop_style.max_width = s.max_width := by
  unfold MarkdownRenderer.pop_style
  split <;> rfl

theorem mw_push_seg (s : MarkdownRenderer) (l : String) (c w : Nat) :
    (s.push_link_segment l c w).max_width = s.max_width :=
  (push_seg_layout s l c w).1

theorem mw_start_line (s : MarkdownRenderer) :
    s.start_line.max_width = s.max_width :=
  (start_line_layout_fields s).2.1

theorem mw_push_parts (style : Style) :
    ∀ (ps : List (List Char)) (s : MarkdownRenderer) (first : Bool),
      (MarkdownRenderer.push_parts style s first ps).max_width =
        s.max_width := by
  intro ps
  induction ps with
  | nil => intro s first; rfl
  | cons p ps ih =>
    intro s first
    unfold MarkdownRenderer.push_parts
    simp only []
    rw [ih, mw_push_seg]
    show ((if first = true then s else s.flush_line).start_line).max_width =
      s.max_width
    rw [mw_start_line]
    split
    · rfl
    · exact mw_flush s

theorem mw_push_long_word (s : MarkdownRenderer) (word : String)
    (style : Style) :
    (s.push_long_word word style).max_width = s.max_width := by
  unfold MarkdownRenderer.push_long_word
  exact mw_push_parts style _ s true

theorem mw_push_word (s : MarkdownRenderer) (word : String) (style : Style) :
    (s.push_word word style).max_width = s.max_width := by
  unfold MarkdownRenderer.push_word
  simp only []
  split
  · exact mw_push_long_word s word style
  · rw [mw_push_seg]
    split_ifs <;>
      simp [mw_push_seg, mw_start_line, mw_flush]

theorem mw_push_text_go (style : Style) :
    ∀ (cs buf : List Char) (s : MarkdownRenderer),
      (s.push_text_go style buf cs).max_width = s.max_width := by
  intro cs
  induction cs with
  | nil =>
    intro buf s
    unfold MarkdownRenderer.push_text_go
    split
    · rfl
    · exact mw_push_word s _ style
  | cons c cs ih =>
    intro buf s
    unfold MarkdownRenderer.push_text_go
    split
    · rw [ih, mw_flush]
      split
      · rfl
      · exact mw_push_word s _ style
    · split
      · rw [ih]
        show (if buf.isEmpty = true then s
          else s.push_word (String.mk buf) style).max_width = s.max_width
        split
        · rfl
        · exact mw_push_word s _ style
      · exact ih _ s

theorem mw_push_text (s : MarkdownRenderer) (t : String) (style : Style) :
    (s.push_text t style).max_width = s.max_width :=
  mw_push_text_go style t.data [] s

theorem mw_push_admonition_header (s : MarkdownRenderer) (title : String)
    (sty : AdmonitionStyle) :
    (s.push_admonition_header title sty).max_width = s.max_width := by
  unfold MarkdownRenderer.push_admonition_header
  simp only []
  rw [mw_flush]
  show s.flush_line.start_line.max_width = s.max_width
  rw [mw_start_line, mw_flush]

theorem mw_ensure (s : MarkdownRenderer) :
    s.ensure_admonition_header.max_width = s.max_width := by
  unfold MarkdownRenderer.ensure_admonition_header
  split
  · rfl
  · simp only []
    split
    · exact mw_push_admonition_header s _ _
    · rfl

theorem mw_render_code_block (s : MarkdownRenderer) (hl : Highlighter) :
    (s.render_code_block hl).max_width = s.max_width := by
  unfold MarkdownRenderer.render_code_block
  split
  · rfl
  · simp only []
    apply foldl_preserve (fun t => t.max_width = s.max_width) _ ?_ _ _ ?_
    swap
    · rfl
    intro t a ht
    rw [mw_flush]
    split
    · apply foldl_preserve (fun u => u.max_width = s.max_width) _ ?_ _ _ ?_
      · intro u r hu
        split
        · exact hu
        · exact hu
      · rw [mw_start_line, mw_flush]
        exact ht
    · split
      · rw [mw_start_line, mw_flush]
        exact ht
      · show t.flush_line.start_line.max_width = s.max_width
        rw [mw_start_line, mw_flush]
        exact ht

theorem mw_rule (s : MarkdownRenderer) : s.rule.max_width = s.max_width := by
  unfold MarkdownRenderer.rule
  simp only []
  rw [mw_blank, mw_flush]
  show s.flush_line.start_line.max_width = s.max_width
  rw [mw_start_line, mw_flush]

theorem mw_text_body (s : MarkdownRenderer) (t : String) :
    (s.text_body t).max_width = s.max_width := by
  unfold MarkdownRenderer.text_body
  split
  · rfl
  · exact mw_push_text s t _

theorem mw_text (s : MarkdownRenderer) (t : String) :
    (s.text t).max_width = s.max_width := by
  unfold MarkdownRenderer.text
  split
  · split
    · split
      · exact mw_push_admonition_header s _ _
      · rw [mw_text_body, mw_ensure]
    · rw [mw_text_body, mw_ensure]
  · exact mw_text_body s t

theorem mw_start_tag (s : MarkdownRenderer) (t : MdTag) :
    (s.start_tag t).max_width = s.max_width := by
  cases t <;> unfold MarkdownRenderer.start_tag <;> simp only []
  case emphasis => rfl
  case strong => rfl
  case strikethrough => rfl
  case superscript => rfl
  case subscript => rfl
  case link u => rfl
  case heading => rfl
  case blockQuote k => exact mw_flush s
  case codeBlock lang =>
    show s.ensure_admonition_header.flush_line.max_width = s.max_width
    rw [mw_flush, mw_ensure]
  case item => exact mw_flush s

theorem mw_end_tag (s : MarkdownRenderer) (hl : Highlighter) (t : MdTagEnd) :
    (s.end_tag hl t).max_width = s.max_width := by
  cases t <;> unfold MarkdownRenderer.end_tag <;> simp only []
  case emphasis => exact mw_pop s
  case strong => exact mw_pop s
  case strikethrough => exact mw_pop s
  case superscript => exact mw_pop s
  case subscript => exact mw_pop s
  case link => exact mw_pop _
  case heading => rw [mw_flush]; exact mw_pop s
  case blockQuote => rw [mw_blank]; exact mw_flush s
  case codeBlock =>
    rw [mw_blank]
    show (s.render_code_block hl).flush_line.max_width = s.max_width
    rw [mw_flush, mw_render_code_block]
  case item => exact mw_flush s
  case paragraph => rw [mw_blank, mw_flush]

theorem mw_step (hl : Highlighter) (s : MarkdownRenderer) (e : MdEvent) :
    (s.step hl e).max_width = s.max_width := by
  cases e <;> unfold MarkdownRenderer.step
  case start t => exact mw_start_tag s t
  case stop t => exact mw_end_tag s hl t
  case text t => exact mw_text s t
  case code t =>
    unfold MarkdownRenderer.inline_code
    rw [mw_push_text, mw_ensure]
  case math t =>
    unfold MarkdownRenderer.inline_math
    rw [mw_push_text, mw_ensure]
  case softBreak =>
    unfold MarkdownRenderer.soft_break
    simp only []
    split
    · exact mw_ensure s
    · exact mw_ensure s
  case hardBreak =>
    unfold MarkdownRenderer.hard_break
    simp only []
    split
    · exact mw_ensure s
    · rw [mw_flush]
      exact mw_ensure s
  case html t => exact mw_text s t
  case rule => exact mw_rule s
  case taskListMarker c =>
    unfold MarkdownRenderer.task_list_marker
    rw [mw_push_text, mw_ensure]

theorem winv_push_text_go (style : Style) :
    ∀ (cs buf : List Char) (s : MarkdownRenderer), WidthInv s →
      WidthInv (s.push_text_go style buf cs) := by
  intro cs
  induction cs with
  | nil =>
    intro buf s h
    unfold MarkdownRenderer.push_text_go
    split
    · exact h
    · exact winv_push_word _ _ _ h
  | cons c cs ih =>
    intro buf s h
    unfold MarkdownRenderer.push_text_go
    split
    · apply ih
      have h2 : WidthInv (if buf.isEmpty = true then s
          else s.push_word (String.mk buf) style) := by
        split
        · exact h
        · exact winv_push_word _ _ _ h
      exact (winv_flush _ h2).1
    · split
      · apply ih
        have h2 : WidthInv (if buf.isEmpty = true then s
            else s.push_word (String.mk buf) style) := by
          split
          · exact h
          · exact winv_push_word _ _ _ h
        exact winv_same _ _ h2 rfl rfl rfl rfl rfl rfl rfl rfl rfl rfl
      · exact ih _ _ h

theorem winv_ensure (s : MarkdownRenderer) (h : WidthInv s) :
    WidthInv s.ensure_admonition_header := by
  unfold MarkdownRenderer.ensure_admonition_header
  split
  · exact h
  · simp only []
    split
    · rename_i sty heq
      rw [h.hAdm] at heq
      exact Option.noConfusion heq
    · exact winv_same _ _ h rfl rfl rfl rfl rfl rfl rfl rfl rfl rfl

theorem winv_text (s : MarkdownRenderer) (t : String) (h : WidthInv s) :
    WidthInv (s.text t) := by
  have hbody : ∀ s' : MarkdownRenderer, WidthInv s' →
      WidthInv (s'.text_body t) := by
    intro s' h'
    unfold MarkdownRenderer.text_body
    split
    · rename_i hcb
      rw [h'.hCode] at hcb
      exact Bool.noConfusion hcb
    · exact winv_push_text_go _ _ _ _ h'
  unfold MarkdownRenderer.text
  split
  · split
    · rename_i sty heq
      rw [h.hAdm] at heq
      exact Option.noConfusion heq
    · exact hbody _ (winv_ensure _ h)
  · exact hbody _ h

theorem winv_style_ops (s : MarkdownRenderer) (st : Style) (h : WidthInv s) :
    WidthInv (s.push_style st) ∧ WidthInv s.pop_style := by
  constructor
  · exact winv_same _ _ h rfl rfl rfl rfl rfl rfl rfl rfl rfl rfl
  · unfold MarkdownRenderer.pop_style
    split
    · exact winv_same _ _ h rfl rfl rfl rfl rfl rfl rfl rfl rfl rfl
    · exact h

theorem winv_add_plain (s : MarkdownRenderer) (h : WidthInv s)
    (content : String) (style : Style)
    (hge : s.pref_width ≤ s.current_width)
    (hfits : s.current_width + displayWidth content ≤ s.max_width) :
    WidthInv { s with
      current_line := s.current_line ++ [RSpan.styled content style]
      current_width := s.current_width + displayWidth content } := by
  refine ⟨h.hM, h.hInd, h.hPref, h.hAdm, h.hCode, h.hBuf, h.hLines, ?_, ?_,
    ?_, ?_, ?_⟩
  · simp only [lineWidth_append, RSpan.styled]
    have := h.hCurLe
    omega
  · exact Or.inl hfits
  · intro sp hsp hbr
    rcases List.mem_append.mp hsp with hsp | hsp
    · exact h.hFrag sp hsp hbr
    · simp only [List.mem_singleton] at hsp
      rw [hsp] at hbr
      simp [RSpan.styled] at hbr
  · intro he
    simp at he
  · intro _
    show s.pref_width ≤ s.current_width + displayWidth content
    omega

theorem winv_rule (s : MarkdownRenderer) (h : WidthInv s) :
    WidthInv s.rule := by
  unfold MarkdownRenderer.rule
  simp only [repeatString_empty]
  apply winv_blank
  set S2 := s.flush_line.start_line with hS2
  have hf := winv_flush s h
  have h2 := winv_start_line_empty s.flush_line hf.1 hf.2.2.1
  have hw2 : WidthInv S2 := h2.1
  have hcw2 : S2.current_width = s.pref_width := by
    rw [hS2, h2.2, hf.2.2.2.2]
  have hmw2 : S2.max_width = s.max_width := by
    rw [hS2, mw_start_line, mw_flush]
  have hpw2 : S2.pref_width = s.pref_width := by
    rw [hS2, start_line_pref, hf.2.2.2.2]
  apply (winv_flush _ ?_).1
  apply winv_add_plain S2 hw2 "" _
  · rw [hcw2, hpw2]
  · show S2.current_width + displayWidth "" ≤ S2.max_width
    have hple : s.pref_width ≤ s.max_width :=
      le_trans (pref_width_le s h.hPref) (le_trans (by omega) h.hInd)
    rw [hcw2, hmw2]
    exact hple

theorem winv_reset_fields (s : MarkdownRenderer) (h : WidthInv s)
    (s' : MarkdownRenderer)
    (h1 : s'.lines = s.lines) (h2 : s'.current_line = [])
    (h3 : s'.current_width = 0) (h4 : s'.max_width = s.max_width)
    (h5 : s'.indent = s.indent)
    (h6 : s'.list_pref = none ∨ s'.list_pref = some " ")
    (h7 : s'.block_quote_style = none) (h8 : s'.in_code_block = false)
    (h9 : s'.code_block_buf = "") : WidthInv s' := by
  refine ⟨h4 ▸ h.hM, ?_, h6, h7, h8, h9, ?_, ?_, ?_, ?_, ?_, ?_⟩
  · rw [h4, h5]
    exact h.hInd
  · rw [h1, h4]
    exact h.hLines
  · rw [h2, h3]
    simp [lineWidth]
  · rw [h3]
    exact Or.inl (Nat.zero_le _)
  · intro sp hsp
    rw [h2] at hsp
    cases hsp
  · intro _
    exact h3
  · intro hne
    exact absurd h2 hne

theorem winv_start_tag (s : MarkdownRenderer) (t : MdTag)
    (ha : allowedWidthEvent (.start t) = true) (h : WidthInv s) :
    WidthInv (s.start_tag t) := by
  cases t <;> unfold MarkdownRenderer.start_tag <;> simp only []
  case emphasis => exact (winv_style_ops s _ h).1
  case strong => exact (winv_style_ops s _ h).1
  case strikethrough => exact (winv_style_ops s _ h).1
  case superscript => exact (winv_style_ops s _ h).1
  case subscript => exact (winv_style_ops s _ h).1
  case link u =>
    exact (winv_style_ops ({ s with active_link_url := some u }) _
      (winv_same s _ h rfl rfl rfl rfl rfl rfl rfl rfl rfl rfl)).1
  case heading => exact (winv_style_ops s _ h).1
  case blockQuote k =>
    cases k with
    | some a => simp [allowedWidthEvent] at ha
    | none =>
      obtain ⟨hw, hcw, hline, hmw, _⟩ := winv_flush s h
      exact winv_reset_fields s.flush_line hw _ rfl hline hcw rfl rfl
        hw.hPref rfl hw.hCode hw.hBuf
  case codeBlock lang => simp [allowedWidthEvent] at ha
  case item =>
    obtain ⟨hw, hcw, hline, hmw, _⟩ := winv_flush s h
    exact winv_reset_fields s.flush_line hw _ rfl hline hcw rfl rfl
      (Or.inr rfl) hw.hAdm hw.hCode hw.hBuf
  case paragraph => exact h
  case other => exact h

theorem winv_end_tag (s : MarkdownRenderer) (hl : Highlighter)
    (t : MdTagEnd) (h : WidthInv s) : WidthInv (s.end_tag hl t) := by
  cases t <;> unfold MarkdownRenderer.end_tag <;> simp only []
  case emphasis => exact (winv_style_ops s default h).2
  case strong => exact (winv_style_ops s default h).2
  case strikethrough => exact (winv_style_ops s default h).2
  case superscript => exact (winv_style_ops s default h).2
  case subscript => exact (winv_style_ops s default h).2
  case link =>
    exact (winv_style_ops ({ s with active_link_url := none }) default
      (winv_same s _ h rfl rfl rfl rfl rfl rfl rfl rfl rfl rfl)).2
  case heading => exact (winv_flush _ (winv_style_ops s default h).2).1
  case blockQuote =>
    apply winv_blank
    obtain ⟨hw, hcw, hline, hmw, _⟩ := winv_flush s h
    exact winv_reset_fields s.flush_line hw _ rfl hline hcw rfl rfl
      hw.hPref rfl hw.hCode hw.hBuf
  case codeBlock =>
    apply winv_blank
    have hrc : s.render_code_block hl = s := by
      unfold MarkdownRenderer.render_code_block
      simp [h.hBuf]
    rw [hrc]
    obtain ⟨hw, hcw, hline, hmw, _⟩ := winv_flush s h
    exact winv_reset_fields s.flush_line hw _ rfl hline hcw rfl rfl
      hw.hPref hw.hAdm rfl rfl
  case item =>
    obtain ⟨hw, hcw, hline, hmw, _⟩ := winv_flush s h
    exact winv_reset_fields s.flush_line hw _ rfl hline hcw rfl rfl
      (Or.inl rfl) hw.hAdm hw.hCode hw.hBuf
  case paragraph => exact winv_blank _ (winv_flush _ h).1
  case other => exact h

theorem winv_step (hl : Highlighter) (s : MarkdownRenderer) (e : MdEvent)
    (ha : allowedWidthEvent e = true) (h : WidthInv s) :
    WidthInv (s.step hl e) := by
  cases e <;> unfold MarkdownRenderer.step
  case start t => exact winv_start_tag s t ha h
  case stop t => exact winv_end_tag s hl t h
  case text t => exact winv_text s t h
  case code t =>
    unfold MarkdownRenderer.inline_code
    exact winv_push_text_go _ _ _ _ (winv_ensure _ h)
  case math t =>
    unfold MarkdownRenderer.inline_math
    exact winv_push_text_go _ _ _ _ (winv_ensure _ h)
  case softBreak =>
    unfold MarkdownRenderer.soft_break
    simp only []
    split
    · rename_i hcb
      rw [(winv_ensure s h).hCode] at hcb
      exact Bool.noConfusion hcb
    · exact winv_same _ _ (winv_ensure s h) rfl rfl rfl rfl rfl rfl rfl rfl
        rfl rfl
  case hardBreak =>
    unfold MarkdownRenderer.hard_break
    simp only []
    split
    · rename_i hcb
      rw [(winv_ensure s h).hCode] at hcb
      exact Bool.noConfusion hcb
    · exact (winv_flush _ (winv_ensure s h)).1
  case html t => exact winv_text s t h
  case rule => exact winv_rule s h
  case taskListMarker c =>
    unfold MarkdownRenderer.task_list_marker
    exact winv_push_text_go _ _ _ _ (winv_ensure _ h)

theorem foldl_preserve_mem {α : Type} (P : MarkdownRenderer → Prop)
    (Q : α → Prop) (f : MarkdownRenderer → α → MarkdownRenderer)
    (hf : ∀ s a, Q a → P s → P (f s a)) :
    ∀ (l : List α) (s : MarkdownRenderer), (∀ a ∈ l, Q a) → P s →
      P (List.foldl f s l) := by
  intro l
  induction l with
  | nil => intro s _ h; exact h
  | cons a l ih =>
    intro s hq h
    exact ih _ (fun b hb => hq b (List.mem_cons_of_mem a hb))
      (hf s a (hq a (List.mem_cons_self a l)) h)

theorem new_winv (w ind : Nat) (hind : ind + 3 ≤ max w 10) :
    WidthInv (MarkdownRenderer.new w ind) := by
  refine ⟨Nat.le_max_right _ _, hind, Or.inl rfl, rfl, rfl, rfl, ?_, ?_, ?_,
    ?_, ?_, ?_⟩
  · intro l hl
    cases hl
  · show lineWidth ([] : RLine) ≤ 0
    decide
  · exact Or.inl (Nat.zero_le _)
  · intro sp hsp
    cases hsp
  · intro _
    rfl
  · intro hne
    exact absurd rfl hne

theorem mem_dropWhile {α : Type} (p : α → Bool) :
    ∀ (l : List α) (a : α), a ∈ l.dropWhile p → a ∈ l := by
  intro l
  induction l with
  | nil => intro a h; exact h
  | cons b l ih =>
    intro a h
    simp only [List.dropWhile] at h
    split at h
    · exact List.mem_cons_of_mem b (ih a h)
    · exact h

theorem finish_lines_ok (s : MarkdownRenderer) (h : WidthInv s) :
    ∀ l ∈ s.finish.lines, lineOKW s.max_width l ∧ fragsOKW s.max_width l := by
  intro l hl2
  unfold MarkdownRenderer.finish at hl2
  simp only [] at hl2
  split at hl2
  · simp only [List.mem_singleton] at hl2
    rw [hl2]
    constructor
    · exact Or.inl (le_of_eq_of_le (by decide : lineWidth [RSpan.raw ""] = 0)
        (Nat.zero_le _))
    · intro sp hsp hb
      simp only [List.mem_singleton] at hsp
      rw [hsp] at hb
      exact absurd hb (by decide)
  · have hmem : l ∈ s.flush_line.lines := by
      have h1 := List.mem_reverse.mp hl2
      exact List.mem_reverse.mp (mem_dropWhile List.isEmpty _ l h1)
    have hres := (winv_flush s h).1.hLines l hmem
    rwa [mw_flush] at hres

/-- C1: amended width invariant. The claim's unconditional form is false
(see `width_claim_cex`): the renderer silently clamps `max_width` to at
least 10, and code-block lines and admonition title headers are emitted
without wrapping. For event streams free of code blocks and
admonition-tagged quotes, and an indent leaving at least three cells of
room under the clamped width, every rendered line's summed span display
width stays within the clamped width `max w 10` unless the line carries a
long-word hard-break fragment, and every such fragment fits the clamped
width on its own. -/
theorem width_invariant_amended (hl : Highlighter) (evs : List MdEvent)
    (w ind : Nat) (hall : ∀ e ∈ evs, allowedWidthEvent e = true)
    (hind : ind + 3 ≤ max w 10) :
    ∀ l ∈ (renderMarkdownEvents hl evs w ind).lines,
      (lineWidth l ≤ max w 10 ∨ ∃ sp ∈ l, sp.fromBreak = true) ∧
        ∀ sp ∈ l, sp.fromBreak = true → displayWidth sp.content ≤ max w 10 := by
  have hfold : WidthInv (renderEvents hl (MarkdownRenderer.new w ind) evs) ∧
      (renderEvents hl (MarkdownRenderer.new w ind) evs).max_width =
        max w 10 := by
    unfold renderEvents
    exact foldl_preserve_mem
      (fun s => WidthInv s ∧ s.max_width = max w 10)
      (fun e => allowedWidthEvent e = true) (MarkdownRenderer.step hl)
      (fun s e hq hp =>
        ⟨winv_step hl s e hq hp.1, (mw_step hl s e).trans hp.2⟩)
      evs (MarkdownRenderer.new w ind) hall ⟨new_winv w ind hind, rfl⟩
  intro l hl2
  unfold renderMarkdownEvents at hl2
  have hres := finish_lines_ok _ hfold.1 l hl2
  rw [hfold.2] at hres
  exact hres

/-- C1 counterexample to the claim as stated: at requested width 1, the
plain paragraph `hello` renders as a 5-cell line with no long-word
hard-break fragment, because `MarkdownRenderer::new` silently clamps the
width to 10. -/
theorem width_claim_cex :
    ¬ ∀ l ∈ (renderMarkdownEvents hlNone evHello 1 0).lines,
      lineWidth l ≤ 1 ∨ ∃ sp ∈ l, sp.fromBreak = true := by
  decide

/-- Witness instantiating the amended width invariant on the `hello`
paragraph at requested width 1. -/
theorem width_invariant_amended_witness :
    (∀ e ∈ evHello, allowedWidthEvent e = true) ∧ 0 + 3 ≤ max 1 10 ∧
      ∀ l ∈ (renderMarkdownEvents hlNone evHello 1 0).lines,
        (lineWidth l ≤ max 1 10 ∨ ∃ sp ∈ l, sp.fromBreak = true) ∧
          ∀ sp ∈ l, sp.fromBreak = true → displayWidth sp.content ≤ max 1 10 :=
  ⟨by decide, by decide,
    width_invariant_amended hlNone evHello 1 0 (by decide) (by decide)⟩
